import Mathlib

/-!
# Verification of the gemini-ccsr tiered relation finder

This file gives a shallow embedding, in Lean 4, of the core algorithm of the
gemini-ccsr repository (files `gemini_ccsr/relation_finder.py` and
`gemini_ccsr/formatter.py`) and proves the behavioural properties stated in
the accompanying specification.

Modelling conventions:
* A reference-table row (one row of the official CCSR DataFrame) is a `Row`:
  its ICD code, its default category `ccsr_def`, and `cats`, the list of the
  non-null entries of the columns `ccsr_1 .. ccsr_6` in column order.
  pandas' `stack()` over those columns is list concatenation of `cats`.
* Python strings are Lean `String`s; Python slicing (by code points) is
  modelled on the underlying character list (`strTake`, `strDropRight`, ...).
* pandas DataFrames are lists of rows; boolean-mask selection is `List.filter`;
  `pd.concat` is `++`.
* The float `prct_fam_agree` column is modelled exactly: the value
  `round(100*count/size, 2)` is stored as an integer number of *hundredths*
  (`pctHundredths`), and a bridge lemma identifies it with the rational
  `round2 (100*count/size)` where `round2` rounds to two decimals, ties to
  even (numpy's rounding rule).
* A Python exception (the `ValueError` that `int(icd[-2:])` can raise inside
  `get_halfsibs`) is modelled with `Except Unit`.
-/

/-- One row of the official CCSR reference table: the ICD-10 code, the default
CCSR category, and the list of non-null CCSR 1-6 categories in column order. -/
structure Row where
  icd : String
  ccsr_def : String
  cats : List String
deriving DecidableEq, Repr

/-- A row of the `automatic` output DataFrame of `get_predicted`:
`ccsr` is the list of agreed categories, as laid out in the columns
`ccsr_1 .. ccsr_6` (the remaining columns are null). -/
structure AutoRow where
  queried_icd : String
  deciding_relationship : String
  ccsr : List String
  related_codes : List String
deriving DecidableEq, Repr

/-- A row of the `semiautomatic` output DataFrame of `get_predicted`.
`prct_fam_agree` is the agreement percentage rounded to two decimals,
represented exactly as an integer number of hundredths of a percent. -/
structure SemiRow where
  queried_icd : String
  ccsr_1 : String
  prct_fam_agree : ℕ
  relationship : String
deriving DecidableEq, Repr

/-! ## String slicing helpers (Python semantics, by code points) -/

/-- Python `s[:n]`. -/
def strTake (s : String) (n : ℕ) : String := ⟨s.data.take n⟩

/-- Python `s[:-n]` (for `n ≤ len s`; for larger `n` both give `""`). -/
def strDropRight (s : String) (n : ℕ) : String := ⟨s.data.take (s.data.length - n)⟩

/-- Python `s[-n:]` (for `0 < n ≤ len s`). -/
def strTakeRight (s : String) (n : ℕ) : String := ⟨s.data.drop (s.data.length - n)⟩

/-- Python `len(s)`. -/
def strLen (s : String) : ℕ := s.data.length

/-- Python `s.startswith(t)` is `startsWith s t`. -/
def startsWith (s t : String) : Bool := t.data.isPrefixOf s.data

/-- Python `s.isdigit()` for ASCII strings: non-empty and all digits. -/
def isDigits (s : String) : Bool := !s.data.isEmpty && s.data.all Char.isDigit

/-- Python `int(s)` for a (possibly invalid) numeric literal, as an `Option`:
`none` models the `ValueError` raised on non-digit input. -/
def strToNat (s : String) : Option ℕ :=
  if isDigits s then
    some (s.data.foldl (fun n c => 10 * n + (c.toNat - '0'.toNat)) 0)
  else none

/-! ## The six relationship classifiers (`relation_finder.py`) -/

/-- `related.insert(loc=0, column='relationship', value=t)`: tag every row of a
classifier's result with its relationship kind (`None` becomes no rows). -/
def tagRows (t : String) : Option (List Row) → List (String × Row)
  | none => []
  | some g => g.map (fun r => (t, r))

/-- The `for gen_num in range(1, 5)` loop of `get_children`: return the first
non-empty generation (extra length 1, then 2, 3, 4). -/
def childLoop (icd : String) (child : List Row) : List ℕ → Option (List Row)
  | [] => none
  | gen :: gens =>
    let generation := child.filter (fun r => strLen r.icd == strLen icd + gen)
    if 0 < generation.length then some generation else childLoop icd child gens

/-- `get_children` (relation_finder.py:480): rows whose code starts with `icd`,
restricted to the closest non-empty generation (1 to 4 extra characters). -/
def get_children (icd : String) (ccsr : List Row) : Option (List Row) :=
  let child := ccsr.filter (fun r => startsWith r.icd icd)
  if child.length = 0 then none else childLoop icd child [1, 2, 3, 4]

/-- `get_sibs` (relation_finder.py:539): rows whose code agrees with `icd` on
all but the last character. -/
def get_sibs (icd : String) (ccsr : List Row) : Option (List Row) :=
  let sibs := ccsr.filter (fun r => strDropRight r.icd 1 == strDropRight icd 1)
  if sibs.length = 0 then none else some sibs

/-- The `for str_len in range(len(icd)-1, 2, -1)` loop of `get_parents`. -/
def parentLoop (icd : String) (ccsr : List Row) : List ℕ → Option (List Row)
  | [] => none
  | n :: ns =>
    let generation := ccsr.filter (fun r => r.icd == strTake icd n)
    if 0 < generation.length then some generation else parentLoop icd ccsr ns

/-- `range(len(icd)-1, 2, -1)` = `[len-1, len-2, ..., 3]`. -/
def parentLens (l : ℕ) : List ℕ := (List.range' 3 (l - 3)).reverse

/-- `get_parents` (relation_finder.py:592): the rows matching the longest
strict prefix of `icd` (length ≥ 3) that occurs in the table. -/
def get_parents (icd : String) (ccsr : List Row) : Option (List Row) :=
  parentLoop icd ccsr (parentLens (strLen icd))

/-- `get_halfsibs` (relation_finder.py:723).  Only codes of length ≥ 5 are
considered; candidates share all but the last two characters, have the same
length and end in two digits; the final filter keeps candidates whose last two
digits are within 9 of `int(icd[-2:])` — a conversion that raises `ValueError`
(modelled by `Except.error ()`) when the queried code's own last two
characters are not digits while candidates exist. -/
def get_halfsibs (icd : String) (ccsr : List Row) : Except Unit (Option (List Row)) :=
  if 5 ≤ strLen icd then
    let hs1 := ccsr.filter (fun r =>
      strDropRight r.icd 2 == strDropRight icd 2 && strLen r.icd == strLen icd)
    let hs2 := hs1.filter (fun r => isDigits (strTakeRight r.icd 2))
    if 0 < hs2.length then
      match strToNat (strTakeRight icd 2) with
      | none => .error ()
      | some n =>
        let hs3 := hs2.filter (fun r =>
          (((strToNat (strTakeRight r.icd 2)).getD 0 : ℤ) - (n : ℤ)).natAbs < 10)
        if hs3.length = 0 then .ok none else .ok (some hs3)
    else .ok none
  else .ok none

/-- `get_cousins` (relation_finder.py:791): rows sharing the first three
characters. -/
def get_cousins (icd : String) (ccsr : List Row) : Option (List Row) :=
  let cousins := ccsr.filter (fun r => strTake r.icd 3 == strTake icd 3)
  if cousins.length = 0 then none else some cousins

/-- `get_extfam` (relation_finder.py:850): rows sharing the first two
characters. -/
def get_extfam (icd : String) (ccsr : List Row) : Option (List Row) :=
  let extfam := ccsr.filter (fun r => strTake r.icd 2 == strTake icd 2)
  if extfam.length = 0 then none else some extfam

/-- `get_closely_related` (relation_finder.py:407): concatenation of the tagged
Children, Siblings and Parents rows. -/
def get_closely_related (icd : String) (ccsr : List Row) : List (String × Row) :=
  tagRows "Children" (get_children icd ccsr) ++
  tagRows "Siblings" (get_sibs icd ccsr) ++
  tagRows "Parents" (get_parents icd ccsr)

/-- `get_distantly_related` (relation_finder.py:648): concatenation of the
tagged Half-Siblings, Cousins and Extended Family rows; the `ValueError`
that `get_halfsibs` can raise propagates. -/
def get_distantly_related (icd : String) (ccsr : List Row) :
    Except Unit (List (String × Row)) :=
  match get_halfsibs icd ccsr with
  | .error e => .error e
  | .ok hs => .ok (tagRows "Half-Siblings" hs ++
                   tagRows "Cousins" (get_cousins icd ccsr) ++
                   tagRows "Extended Family" (get_extfam icd ccsr))

/-! ## Consensus scoring (`get_predicted`, relation_finder.py:87) -/

/-- `df[ccsr_colnames].stack()`: the categories of a group of rows, flattened
in row-major order (nulls are absent from `Row.cats` already). -/
def stackCats (rows : List Row) : List String := rows.flatMap Row.cats

/-- `code_counts[code_counts == len(df)].index.to_list()`: the categories whose
occurrence count over the stacked group equals the group size (the "fully
agreed" categories).  `value_counts()` lists each category once; we take the
distinct categories of the stack. -/
def agreedCats (rows : List Row) : List String :=
  (stackCats rows).dedup.filter (fun c => (stackCats rows).count c == rows.length)

/-- `round(100*count/size, 2)` stored in hundredths: the integer nearest to
`10000*count/size`, ties to even (numpy rounding).  Written with natural
division so that it evaluates by kernel reduction. -/
def pctHundredths (count size : ℕ) : ℕ :=
  let n := 10000 * count
  let q := n / size
  let r := n % size
  if 2 * r < size then q
  else if size < 2 * r then q + 1
  else if q % 2 = 0 then q else q + 1

/-- One `code_perc` block (relation_finder.py:273 and 363): a row per distinct
category of the pool, carrying the rounded percentage of pool members sharing
it and the tier label (`"Close"` or `"Distant"`). -/
def percRows (icd tag : String) (rows : List Row) : List SemiRow :=
  (stackCats rows).dedup.map
    (fun c => ⟨icd, c, pctHundredths ((stackCats rows).count c) rows.length, tag⟩)

/-- The terminal classification of one queried code inside `get_predicted`:
appended to the resolved (automatic), unresolved (semiautomatic) or failed
accumulator — or to none of them (`dropped`), a structurally possible but
unreachable branch of the Python loop. -/
inductive CodeRes where
  | auto (r : AutoRow)
  | semi (rs : List SemiRow)
  | fail
  | dropped
deriving DecidableEq, Repr

/-- The rows of a tagged relation list carrying a given relationship kind,
`df[df['relationship'] == k]`. -/
def groupFor (rel : List (String × Row)) (k : String) : List Row :=
  (rel.filter (fun p => p.1 == k)).map Prod.snd

/-- The close-tier loop `for relation in ['Children', 'Siblings', 'Parents']`
(relation_finder.py:239-283), carrying the accumulated close-family pool
`icd_relation_temp`.  After the loop: no pool means nothing is emitted
(`dropped`); an empty `code_perc` sends the code to the failed accumulator;
otherwise its rows become semiautomatic candidates. -/
def closeLoop (icd : String) (rel : List (String × Row)) :
    List String → List Row → CodeRes
  | [], temp =>
    if temp.isEmpty then .dropped
    else
      let perc := percRows icd "Close" temp
      if perc.isEmpty then .fail else .semi perc
  | k :: ks, temp =>
    let g := groupFor rel k
    if g.isEmpty then closeLoop icd rel ks temp
    else
      let agreed := agreedCats g
      if agreed.isEmpty then closeLoop icd rel ks (temp ++ g)
      else .auto ⟨icd, k, agreed, g.map Row.icd⟩

/-- The close-tier body of `get_predicted` for one queried code. -/
def closeResolve (ccsr : List Row) (icd : String) : CodeRes :=
  let rel := get_closely_related icd ccsr
  if rel.isEmpty then .fail
  else closeLoop icd rel ["Children", "Siblings", "Parents"] []

/-- The distant-tier loop (relation_finder.py:324-358): the loop breaks right
after the first relationship kind with at least one match, so only that group
is scored; agreement yields an automatic row, otherwise the group's
`code_perc` rows become semiautomatic candidates (tier `Distant`). -/
def distLoop (icd : String) (rel : List (String × Row)) : List String → CodeRes
  | [] => .dropped
  | k :: ks =>
    let g := groupFor rel k
    if g.isEmpty then distLoop icd rel ks
    else
      let agreed := agreedCats g
      if agreed.isEmpty then
        let perc := percRows icd "Distant" g
        if perc.isEmpty then .fail else .semi perc
      else .auto ⟨icd, k, agreed, g.map Row.icd⟩

/-- The distant-tier body of `get_predicted` for one queried code; the
half-sibling `ValueError` propagates. -/
def distResolve (ccsr : List Row) (icd : String) : Except Unit CodeRes :=
  match get_distantly_related icd ccsr with
  | .error e => .error e
  | .ok rel =>
    .ok (if rel.isEmpty then .fail
         else distLoop icd rel ["Half-Siblings", "Cousins", "Extended Family"])

/-! ## Assembling the three output collections -/

/-- Strict lexicographic order on code-point lists: Python's `<` on strings. -/
def lexLt : List Char → List Char → Bool
  | _, [] => false
  | [], _ :: _ => true
  | a :: as, b :: bs =>
    if a.toNat < b.toNat then true
    else if b.toNat < a.toNat then false
    else lexLt as bs

/-- Python's `<` on strings (lexicographic by code point). -/
def strLt (s t : String) : Prop := lexLt s.data t.data = true

/-- Python's `≤` on strings (lexicographic by code point). -/
def strLe (s t : String) : Prop := lexLt t.data s.data = false

instance : DecidableRel strLt := fun s t =>
  inferInstanceAs (Decidable (lexLt s.data t.data = true))

instance : DecidableRel strLe := fun s t =>
  inferInstanceAs (Decidable (lexLt t.data s.data = false))

/-- `unmapped.sort_values('icd')` and the final ascending sorts on code. -/
def sortStr (l : List String) : List String := l.insertionSort strLe

/-- The close-tier pass: each unmapped code (in ascending order) paired with
its close-tier classification. -/
def closePhase (ccsr : List Row) (unmapped : List String) :
    List (String × CodeRes) :=
  (sortStr unmapped).map (fun icd => (icd, closeResolve ccsr icd))

/-- The `closefam_resolved` / `distfam_resolved` accumulator built from a pass. -/
def autosOf (l : List (String × CodeRes)) : List AutoRow :=
  l.filterMap (fun p => match p.2 with | .auto r => some r | _ => none)

/-- The `closefam_unresolved` / `distfam_unresolved` accumulator built from a
pass (one block of rows per code, concatenated). -/
def semisOf (l : List (String × CodeRes)) : List SemiRow :=
  (l.filterMap (fun p => match p.2 with | .semi rs => some rs | _ => none)).flatten

/-- The `closefam_failed` / `distfam_failed` accumulator built from a pass. -/
def failsOf (l : List (String × CodeRes)) : List String :=
  l.filterMap (fun p => match p.2 with | .fail => some p.1 | _ => none)

/-- The distant-tier pass over the codes that failed the close tier; an
exception raised for any code aborts `get_predicted`. -/
def distPhase (ccsr : List Row) : List String → Except Unit (List (String × CodeRes))
  | [] => .ok []
  | icd :: rest =>
    match distResolve ccsr icd with
    | .error e => .error e
    | .ok r =>
      match distPhase ccsr rest with
      | .error e => .error e
      | .ok l => .ok ((icd, r) :: l)

/-- `automatic.sort_values(["queried_icd"])`. -/
def autoLE (a b : AutoRow) : Prop := strLe a.queried_icd b.queried_icd

/-- `semiautomatic.sort_values(["queried_icd", "prct_fam_agree", "ccsr_1"],
ascending=[True, False, True])`. -/
def semiLE (a b : SemiRow) : Prop :=
  strLt a.queried_icd b.queried_icd ∨
    (a.queried_icd = b.queried_icd ∧
      (b.prct_fam_agree < a.prct_fam_agree ∨
        (a.prct_fam_agree = b.prct_fam_agree ∧ strLe a.ccsr_1 b.ccsr_1)))

instance : DecidableRel autoLE := fun a b =>
  inferInstanceAs (Decidable (strLe a.queried_icd b.queried_icd))

instance : DecidableRel semiLE := fun a b =>
  inferInstanceAs (Decidable (strLt a.queried_icd b.queried_icd ∨ _))

/-- `get_predicted` (relation_finder.py:87-404): the close-tier pass over the
sorted unmapped codes, the distant-tier pass over the close failures, and the
three sorted output collections (`automatic`, `semiautomatic`, `failed`). -/
def get_predicted (unmapped : List String) (ccsr : List Row) :
    Except Unit (List AutoRow × List SemiRow × List String) :=
  let close := closePhase ccsr unmapped
  match distPhase ccsr (sortStr (failsOf close)) with
  | .error e => .error e
  | .ok dist =>
    .ok ((autosOf close ++ autosOf dist).insertionSort autoLE,
         (semisOf close ++ semisOf dist).insertionSort semiLE,
         sortStr (failsOf dist))

/-! ## Rounding specification

The reference view of `pctHundredths`: `round2 q` rounds the rational `q` to
two decimal places with ties to even, numpy's rounding rule for
`Series.round(decimals=2)` (the Python code rounds an IEEE double; the
rational semantics is the exact idealisation of it). -/

/-- Round a rational to the nearest integer, ties to even. -/
def roundHalfEven (q : ℚ) : ℤ :=
  if Int.fract q = 1 / 2 then (if 2 ∣ ⌊q⌋ then ⌊q⌋ else ⌊q⌋ + 1) else round q

/-- Round a rational to two decimal places, ties to even. -/
def round2 (q : ℚ) : ℚ := (roundHalfEven (q * 100) : ℚ) / 100

/-! ## The default-category assigner (`formatter.py`) -/

/-- `list(set(l))` / `drop_duplicates()` keyed by `f`: keep the first row with
each key. -/
def dropDupBy {α β : Type} [DecidableEq β] (f : α → β) (seen : List β) :
    List α → List α
  | [] => []
  | x :: xs =>
    if f x ∈ seen then dropDupBy f seen xs
    else x :: dropDupBy f (f x :: seen) xs

/-- `get_default_map` (formatter.py:7): after dropping duplicate
`(ccsr_def, ccsr_1..6)` combinations, map the sorted tuple of a row's non-null,
non-`' '` categories to the row's default category.  Building the `dict`
row-by-row makes the *last* entry win on key collisions, which `lookupLast`
reproduces. -/
def get_default_map (official : List Row) : List (List String × String) :=
  (dropDupBy (fun r => (r.ccsr_def, r.cats)) [] official).map
    (fun r => (sortStr (r.cats.filter (fun c => c != " ")), r.ccsr_def))

/-- `dict` lookup where later insertions overwrite earlier ones. -/
def lookupLast (m : List (List String × String)) (k : List String) :
    Option String :=
  (m.reverse.find? (fun p => p.1 == k)).map Prod.snd

/-- `value_counts().sort_values(ascending=False).index[0]`: a value of maximal
multiplicity (the first-encountered one among ties). -/
def argmaxCount (l : List String) : Option String :=
  match dropDupBy id [] l with
  | [] => none
  | d :: ds => some (ds.foldl (fun best c => if l.count best < l.count c then c else best) d)

/-- The defaults of the related codes that belong to the agreed set
(formatter.py:185-191). -/
def sharedDefs (official : List Row) (row : AutoRow) : List String :=
  let rel := official.filter (fun r => row.related_codes.contains r.icd)
  (rel.filter (fun r => (sortStr row.ccsr).contains r.ccsr_def)).map Row.ccsr_def

/-- `add_default` (formatter.py:103) restricted to a single automatic row: the
default-map lookup on the sorted agreed tuple wins outright; otherwise a sole
agreed category (null `ccsr_2`) becomes the default; otherwise the most
frequent default among related codes' defaults lying in the agreed set, and
null if there is none. -/
def add_default_row (official : List Row) (row : AutoRow) : Option String :=
  match lookupLast (get_default_map official) (sortStr row.ccsr) with
  | some d => some d
  | none =>
    if row.ccsr.length < 2 then row.ccsr.head?
    else
      match argmaxCount (sharedDefs official row) with
      | some d => some d
      | none => none

/-! ## Query-code normalisation (`check_icd`, formatter.py:323) -/

/-- Python `str.capitalize()`: first character uppercased, the rest
lowercased (ASCII semantics, which is what ICD codes use). -/
def pyCapitalize (s : String) : String :=
  match s.data with
  | [] => ⟨[]⟩
  | c :: cs => ⟨c.toUpper :: cs.map Char.toLower⟩

/-- `check_icd` (formatter.py:323): the query codes (`none` models a NaN
entry) deduplicated (`list(set(...))`), NaN-filtered, capitalized and sorted
ascending.  Python's `set` iterates in an unspecified order; the final sort
makes the result independent of the order `dropDupBy` fixes. -/
def check_icd (query_icd : List (Option String)) : List String :=
  let q := dropDupBy id [] query_icd
  let q := q.filterMap (fun e => e)
  let q := q.map pyCapitalize
  sortStr q

/-! ## Well-formedness of the reference table

The specification's data model: every reference entry carries between 1 and 6
categories, and category membership is a set (no duplicate within a row). -/

/-- A well-formed reference table. -/
def WellFormedTable (ccsr : List Row) : Prop :=
  ∀ r ∈ ccsr, r.cats ≠ [] ∧ r.cats.Nodup ∧ r.cats.length ≤ 6

instance : DecidablePred WellFormedTable := fun ccsr =>
  inferInstanceAs (Decidable (∀ r ∈ ccsr, _ ∧ _ ∧ _))

/-! ## Derived notions used to state the specification's claims -/

/-- The two-tier resolution of a single queried code: the close tier, falling
through to the distant tier exactly when the close tier failed. -/
def resolveCode (ccsr : List Row) (icd : String) : Except Unit CodeRes :=
  match closeResolve ccsr icd with
  | .fail => distResolve ccsr icd
  | r => .ok r

/-- The ordered close-tier relationship kinds. -/
def closeKinds : List String := ["Children", "Siblings", "Parents"]

/-- The ordered distant-tier relationship kinds. -/
def distKinds : List String := ["Half-Siblings", "Cousins", "Extended Family"]

/-- The first close-tier kind (in evaluation order) whose non-empty group has a
non-empty fully-agreed category set, together with that group. -/
def firstAgreedClose (icd : String) (ccsr : List Row) :
    Option (String × List Row) :=
  let rel := get_closely_related icd ccsr
  closeKinds.findSome? (fun k =>
    let g := groupFor rel k
    if !g.isEmpty && !(agreedCats g).isEmpty then some (k, g) else none)

/-- The first distant-tier kind (in evaluation order) with at least one match,
together with its group (`none` if the half-sibling search raised or if no
distant kind matched). -/
def firstNonemptyDist (icd : String) (ccsr : List Row) :
    Option (String × List Row) :=
  match get_distantly_related icd ccsr with
  | .error _ => none
  | .ok rel =>
    distKinds.findSome? (fun k =>
      let g := groupFor rel k
      if g.isEmpty then none else some (k, g))

/-- The queried code appears as a row of the `automatic` collection. -/
def memAuto (a : List AutoRow) (icd : String) : Prop :=
  ∃ r ∈ a, r.queried_icd = icd

/-- The queried code appears as a row of the `semiautomatic` collection. -/
def memSemi (s : List SemiRow) (icd : String) : Prop :=
  ∃ r ∈ s, r.queried_icd = icd

/-- The partition property of `get_predicted`'s output for one queried code:
it appears in exactly one of `automatic`, `semiautomatic`, `failed`. -/
def ExactlyOne (out : List AutoRow × List SemiRow × List String) (icd : String) :
    Prop :=
  (memAuto out.1 icd ∨ memSemi out.2.1 icd ∨ icd ∈ out.2.2) ∧
  ¬(memAuto out.1 icd ∧ memSemi out.2.1 icd) ∧
  ¬(memAuto out.1 icd ∧ icd ∈ out.2.2) ∧
  ¬(memSemi out.2.1 icd ∧ icd ∈ out.2.2)

/-- The rows of a classifier result (`None` = no rows). -/
def optRows : Option (List Row) → List Row
  | none => []
  | some g => g

/-- The relation group a deciding relationship refers to: the rows of the
queried code's close (resp. distant) tagged relative list carrying that
relationship kind. -/
def relationGroup (ccsr : List Row) (icd k : String) : List Row :=
  if k ∈ closeKinds then groupFor (get_closely_related icd ccsr) k
  else
    match get_distantly_related icd ccsr with
    | .error _ => []
    | .ok rel => groupFor rel k

/-! # Proof layer -/

/-! ## The lexicographic string order -/

theorem lexLt_irrefl : ∀ l : List Char, lexLt l l = false
  | [] => rfl
  | a :: as => by
    simp only [lexLt, Nat.lt_irrefl, if_false]
    exact lexLt_irrefl as

theorem lexLt_asymm : ∀ {a b : List Char}, lexLt a b = true → lexLt b a = false
  | _, [], h => by simp [lexLt] at h
  | [], _ :: _, _ => rfl
  | a :: as, b :: bs, h => by
    by_cases h1 : a.toNat < b.toNat
    · have h2 : ¬ b.toNat < a.toNat := Nat.lt_asymm h1
      simp only [lexLt, h1, h2, if_true, if_false]
    · by_cases h2 : b.toNat < a.toNat
      · simp only [lexLt, h1, h2, if_true, if_false] at h
        exact Bool.noConfusion h
      · simp only [lexLt, h1, h2, if_false] at h ⊢
        exact lexLt_asymm h

theorem lexLt_trans : ∀ {a b c : List Char},
    lexLt a b = true → lexLt b c = true → lexLt a c = true
  | _, _, [], _, h2 => by simp [lexLt] at h2
  | [], _, _ :: _, _, _ => rfl
  | _ :: _, [], _, h1, _ => by simp [lexLt] at h1
  | a :: as, b :: bs, c :: cs, h1, h2 => by
    by_cases hab : a.toNat < b.toNat
    · by_cases hbc : b.toNat < c.toNat
      · have : a.toNat < c.toNat := Nat.lt_trans hab hbc
        simp only [lexLt, this, if_true]
      · by_cases hcb : c.toNat < b.toNat
        · simp only [lexLt, hbc, hcb, if_true, if_false] at h2
          exact Bool.noConfusion h2
        · have hbceq : b.toNat = c.toNat := Nat.le_antisymm (Nat.le_of_not_lt hcb) (Nat.le_of_not_lt hbc)
          have : a.toNat < c.toNat := hbceq ▸ hab
          simp only [lexLt, this, if_true]
    · by_cases hba : b.toNat < a.toNat
      · simp only [lexLt, hab, hba, if_true, if_false] at h1
        exact Bool.noConfusion h1
      · have habeq : a.toNat = b.toNat := Nat.le_antisymm (Nat.le_of_not_lt hba) (Nat.le_of_not_lt hab)
        simp only [lexLt, hab, hba, if_false] at h1
        by_cases hbc : b.toNat < c.toNat
        · have : a.toNat < c.toNat := habeq ▸ hbc
          simp only [lexLt, this, if_true]
        · by_cases hcb : c.toNat < b.toNat
          · simp only [lexLt, hbc, hcb, if_true, if_false] at h2
            exact Bool.noConfusion h2
          · simp only [lexLt, hbc, hcb, if_false] at h2
            have hac : ¬ a.toNat < c.toNat := habeq ▸ hbc
            have hca : ¬ c.toNat < a.toNat := habeq ▸ hcb
            simp only [lexLt, hac, hca, if_false]
            exact lexLt_trans h1 h2

theorem charToNat_inj {a b : Char} (h : a.toNat = b.toNat) : a = b := by
  rw [← Char.ofNat_toNat a, ← Char.ofNat_toNat b, h]

theorem eq_of_lexLt_false : ∀ {a b : List Char},
    lexLt a b = false → lexLt b a = false → a = b
  | [], [], _, _ => rfl
  | [], _ :: _, h1, _ => by simp [lexLt] at h1
  | _ :: _, [], _, h2 => by simp [lexLt] at h2
  | a :: as, b :: bs, h1, h2 => by
    by_cases hab : a.toNat < b.toNat
    · simp only [lexLt, hab, if_true] at h1
      exact Bool.noConfusion h1
    · by_cases hba : b.toNat < a.toNat
      · simp only [lexLt, hba, if_true] at h2
        exact Bool.noConfusion h2
      · simp only [lexLt, hab, hba, if_false] at h1 h2
        have : a = b := charToNat_inj
          (Nat.le_antisymm (Nat.le_of_not_lt hba) (Nat.le_of_not_lt hab))
        rw [this, eq_of_lexLt_false h1 h2]

theorem strLe_total (s t : String) : strLe s t ∨ strLe t s := by
  unfold strLe
  by_cases h1 : lexLt t.data s.data = true
  · exact Or.inr (lexLt_asymm h1)
  · exact Or.inl (Bool.eq_false_iff.mpr h1)

theorem strEq_of_le {s t : String} (h1 : strLe s t) (h2 : strLe t s) : s = t := by
  cases s with
  | mk sd =>
    cases t with
    | mk td =>
      have : sd = td := eq_of_lexLt_false h2 h1
      rw [this]

theorem strLe_trans {s t u : String} (h1 : strLe s t) (h2 : strLe t u) : strLe s u := by
  unfold strLe at *
  by_cases h : lexLt u.data s.data = true
  · by_cases hst : lexLt s.data t.data = true
    · have := lexLt_trans h hst
      rw [this] at h2
      cases h2
    · have hEq : s.data = t.data :=
        eq_of_lexLt_false (Bool.eq_false_iff.mpr hst) h1
      rw [← hEq] at h2
      rw [h] at h2
      cases h2
  · exact Bool.eq_false_iff.mpr h

theorem strLt_asymm {s t : String} (h : strLt s t) : ¬ strLt t s := by
  unfold strLt at *
  rw [lexLt_asymm h]
  simp

theorem strLt_irrefl (s : String) : ¬ strLt s s := by
  unfold strLt
  rw [lexLt_irrefl]
  simp

theorem strLt_trans {s t u : String} (h1 : strLt s t) (h2 : strLt t u) : strLt s u :=
  lexLt_trans h1 h2

theorem strLt_trichot (s t : String) : strLt s t ∨ strLt t s ∨ s = t := by
  by_cases h1 : strLt s t
  · exact Or.inl h1
  · by_cases h2 : strLt t s
    · exact Or.inr (Or.inl h2)
    · refine Or.inr (Or.inr ?_)
      cases s with
      | mk sd =>
        cases t with
        | mk td =>
          have hd : sd = td :=
            eq_of_lexLt_false (Bool.eq_false_iff.mpr h1) (Bool.eq_false_iff.mpr h2)
          rw [hd]

theorem strLe_of_lt {s t : String} (h : strLt s t) : strLe s t := lexLt_asymm h

theorem strLt_of_le_ne {s t : String} (h : strLe s t) (hne : s ≠ t) : strLt s t := by
  rcases strLt_trichot s t with h1 | h1 | h1
  · exact h1
  · exact absurd h1 (by unfold strLt strLe at *; rw [h]; simp)
  · exact absurd h1 hne

theorem strLt_of_lt_of_le {s t u : String} (h1 : strLt s t) (h2 : strLe t u) : strLt s u := by
  rcases strLt_trichot t u with h | h | h
  · exact strLt_trans h1 h
  · exact absurd h (by unfold strLt strLe at *; rw [h2]; simp)
  · exact h ▸ h1

theorem strLt_of_le_of_lt {s t u : String} (h1 : strLe s t) (h2 : strLt t u) : strLt s u := by
  rcases strLt_trichot s t with h | h | h
  · exact strLt_trans h h2
  · exact absurd h (by unfold strLt strLe at *; rw [h1]; simp)
  · exact h ▸ h2

instance : IsTotal String strLe := ⟨strLe_total⟩

instance : IsTrans String strLe := ⟨fun _ _ _ => strLe_trans⟩

instance : IsTotal AutoRow autoLE := ⟨fun a b => strLe_total a.queried_icd b.queried_icd⟩

instance : IsTrans AutoRow autoLE := ⟨fun _ _ _ => strLe_trans⟩

instance : IsTotal SemiRow semiLE := by
  constructor
  intro a b
  rcases strLt_trichot a.queried_icd b.queried_icd with h | h | h
  · exact Or.inl (Or.inl h)
  · exact Or.inr (Or.inl h)
  · rcases Nat.lt_trichotomy a.prct_fam_agree b.prct_fam_agree with hp | hp | hp
    · exact Or.inr (Or.inr ⟨h.symm, Or.inl hp⟩)
    · rcases strLe_total a.ccsr_1 b.ccsr_1 with hc | hc
      · exact Or.inl (Or.inr ⟨h, Or.inr ⟨hp, hc⟩⟩)
      · exact Or.inr (Or.inr ⟨h.symm, Or.inr ⟨hp.symm, hc⟩⟩)
    · exact Or.inl (Or.inr ⟨h, Or.inl hp⟩)

instance : IsTrans SemiRow semiLE := by
  constructor
  intro a b c hab hbc
  rcases hab with h1 | ⟨h1, h1i⟩
  · rcases hbc with h2 | ⟨h2, _⟩
    · exact Or.inl (strLt_trans h1 h2)
    · exact Or.inl (h2 ▸ h1)
  · rcases hbc with h2 | ⟨h2, h2i⟩
    · exact Or.inl (h1 ▸ h2)
    · refine Or.inr ⟨h1.trans h2, ?_⟩
      rcases h1i with hp1 | ⟨hp1, hc1⟩
      · rcases h2i with hp2 | ⟨hp2, _⟩
        · exact Or.inl (Nat.lt_trans hp2 hp1)
        · exact Or.inl (hp2 ▸ hp1)
      · rcases h2i with hp2 | ⟨hp2, hc2⟩
        · exact Or.inl (hp1 ▸ hp2)
        · exact Or.inr ⟨hp1.trans hp2, strLe_trans hc1 hc2⟩

/-! ## Structure of the tagged relative lists -/

theorem mem_tagRows {t : String} {g : Option (List Row)} {p : String × Row} :
    p ∈ tagRows t g ↔ p.1 = t ∧ p.2 ∈ optRows g := by
  cases g with
  | none => simp [tagRows, optRows]
  | some gs =>
    simp only [tagRows, optRows, List.mem_map]
    constructor
    · rintro ⟨r, hr, rfl⟩
      exact ⟨rfl, hr⟩
    · rintro ⟨h1, h2⟩
      exact ⟨p.2, h2, by rw [← h1]⟩

theorem map_snd_tagRows (t : String) (g : Option (List Row)) :
    (tagRows t g).map Prod.snd = optRows g := by
  cases g with
  | none => rfl
  | some gs => simp [tagRows, optRows, List.map_map]

theorem groupFor_append (l1 l2 : List (String × Row)) (k : String) :
    groupFor (l1 ++ l2) k = groupFor l1 k ++ groupFor l2 k := by
  simp [groupFor, List.filter_append]

theorem groupFor_tagRows_same (t : String) (g : Option (List Row)) :
    groupFor (tagRows t g) t = optRows g := by
  cases g with
  | none => rfl
  | some gs =>
    simp [groupFor, tagRows, optRows, List.filter_map, Function.comp_def,
      List.map_map]

theorem groupFor_tagRows_ne {t k : String} (h : t ≠ k) (g : Option (List Row)) :
    groupFor (tagRows t g) k = [] := by
  cases g with
  | none => rfl
  | some gs =>
    simp [groupFor, tagRows, List.filter_map, Function.comp_def, h]

theorem mem_groupFor {rel : List (String × Row)} {k : String} {r : Row} :
    r ∈ groupFor rel k ↔ (k, r) ∈ rel := by
  simp only [groupFor, List.mem_map, List.mem_filter]
  constructor
  · rintro ⟨p, ⟨hp, he⟩, rfl⟩
    rw [beq_iff_eq] at he
    rw [← he]
    simpa using hp
  · intro h
    exact ⟨(k, r), ⟨h, by simp⟩, rfl⟩

theorem groupFor_close_children (icd : String) (ccsr : List Row) :
    groupFor (get_closely_related icd ccsr) "Children" =
      optRows (get_children icd ccsr) := by
  simp [get_closely_related, groupFor_append, groupFor_tagRows_same,
    groupFor_tagRows_ne (show "Siblings" ≠ "Children" by decide),
    groupFor_tagRows_ne (show "Parents" ≠ "Children" by decide)]

theorem groupFor_close_sibs (icd : String) (ccsr : List Row) :
    groupFor (get_closely_related icd ccsr) "Siblings" =
      optRows (get_sibs icd ccsr) := by
  simp [get_closely_related, groupFor_append, groupFor_tagRows_same,
    groupFor_tagRows_ne (show "Children" ≠ "Siblings" by decide),
    groupFor_tagRows_ne (show "Parents" ≠ "Siblings" by decide)]

theorem groupFor_close_parents (icd : String) (ccsr : List Row) :
    groupFor (get_closely_related icd ccsr) "Parents" =
      optRows (get_parents icd ccsr) := by
  simp [get_closely_related, groupFor_append, groupFor_tagRows_same,
    groupFor_tagRows_ne (show "Children" ≠ "Parents" by decide),
    groupFor_tagRows_ne (show "Siblings" ≠ "Parents" by decide)]

theorem map_snd_closely (icd : String) (ccsr : List Row) :
    (get_closely_related icd ccsr).map Prod.snd =
      optRows (get_children icd ccsr) ++ optRows (get_sibs icd ccsr) ++
        optRows (get_parents icd ccsr) := by
  simp [get_closely_related, map_snd_tagRows]

theorem flatten_groups_close (icd : String) (ccsr : List Row) :
    ((closeKinds.map (groupFor (get_closely_related icd ccsr))).flatten) =
      (get_closely_related icd ccsr).map Prod.snd := by
  simp [closeKinds, map_snd_closely, groupFor_close_children,
    groupFor_close_sibs, groupFor_close_parents]

theorem fst_mem_closeKinds {icd : String} {ccsr : List Row} {p : String × Row}
    (h : p ∈ get_closely_related icd ccsr) : p.1 ∈ closeKinds := by
  simp only [get_closely_related, List.mem_append] at h
  rcases h with (h | h) | h <;>
    simp [closeKinds, (mem_tagRows.mp h).1]

/-! ## Classifier results are rows of the reference table -/

theorem childLoop_subset {icd : String} {child : List Row} :
    ∀ {gens : List ℕ} {g : List Row}, childLoop icd child gens = some g →
      ∀ r ∈ g, r ∈ child := by
  intro gens
  induction gens with
  | nil => intro g h; exact absurd h (by simp [childLoop])
  | cons gen gens ih =>
    intro g h r hr
    rw [childLoop] at h
    split at h
    · cases h
      exact (List.mem_filter.mp hr).1
    · exact ih h r hr

theorem get_children_subset {icd : String} {ccsr : List Row} {g : List Row}
    (h : get_children icd ccsr = some g) : ∀ r ∈ g, r ∈ ccsr := by
  rw [get_children] at h
  split at h
  · cases h
  · intro r hr
    exact (List.mem_filter.mp (childLoop_subset h r hr)).1

theorem get_sibs_subset {icd : String} {ccsr : List Row} {g : List Row}
    (h : get_sibs icd ccsr = some g) : ∀ r ∈ g, r ∈ ccsr := by
  rw [get_sibs] at h
  split at h
  · cases h
  · cases h
    intro r hr
    exact (List.mem_filter.mp hr).1

theorem parentLoop_subset {icd : String} {ccsr : List Row} :
    ∀ {ns : List ℕ} {g : List Row}, parentLoop icd ccsr ns = some g →
      ∀ r ∈ g, r ∈ ccsr := by
  intro ns
  induction ns with
  | nil => intro g h; exact absurd h (by simp [parentLoop])
  | cons n ns ih =>
    intro g h r hr
    rw [parentLoop] at h
    split at h
    · cases h
      exact (List.mem_filter.mp hr).1
    · exact ih h r hr

theorem get_parents_subset {icd : String} {ccsr : List Row} {g : List Row}
    (h : get_parents icd ccsr = some g) : ∀ r ∈ g, r ∈ ccsr :=
  parentLoop_subset h

theorem get_halfsibs_subset {icd : String} {ccsr : List Row} {g : List Row}
    (h : get_halfsibs icd ccsr = .ok (some g)) : ∀ r ∈ g, r ∈ ccsr := by
  rw [get_halfsibs] at h
  dsimp only at h
  repeat' split at h
  all_goals cases h
  intro r hr
  exact (List.mem_filter.mp (List.mem_filter.mp (List.mem_filter.mp hr).1).1).1

theorem get_cousins_subset {icd : String} {ccsr : List Row} {g : List Row}
    (h : get_cousins icd ccsr = some g) : ∀ r ∈ g, r ∈ ccsr := by
  rw [get_cousins] at h
  split at h
  · cases h
  · cases h
    intro r hr
    exact (List.mem_filter.mp hr).1

theorem get_extfam_subset {icd : String} {ccsr : List Row} {g : List Row}
    (h : get_extfam icd ccsr = some g) : ∀ r ∈ g, r ∈ ccsr := by
  rw [get_extfam] at h
  split at h
  · cases h
  · cases h
    intro r hr
    exact (List.mem_filter.mp hr).1

theorem optRows_subset_of_subset {f : Option (List Row)} {ccsr : List Row}
    (h : ∀ g, f = some g → ∀ r ∈ g, r ∈ ccsr) : ∀ r ∈ optRows f, r ∈ ccsr := by
  cases f with
  | none => intro r hr; cases hr
  | some g => exact h g rfl

theorem snd_mem_closely {icd : String} {ccsr : List Row} {p : String × Row}
    (h : p ∈ get_closely_related icd ccsr) : p.2 ∈ ccsr := by
  simp only [get_closely_related, List.mem_append] at h
  rcases h with (h | h) | h
  · exact optRows_subset_of_subset (fun g hg => get_children_subset hg) _
      (mem_tagRows.mp h).2
  · exact optRows_subset_of_subset (fun g hg => get_sibs_subset hg) _
      (mem_tagRows.mp h).2
  · exact optRows_subset_of_subset (fun g hg => get_parents_subset hg) _
      (mem_tagRows.mp h).2

theorem get_distantly_related_ok {icd : String} {ccsr : List Row}
    {rel : List (String × Row)} (h : get_distantly_related icd ccsr = .ok rel) :
    ∃ hs, get_halfsibs icd ccsr = .ok hs ∧
      rel = tagRows "Half-Siblings" hs ++ tagRows "Cousins" (get_cousins icd ccsr) ++
        tagRows "Extended Family" (get_extfam icd ccsr) := by
  rw [get_distantly_related] at h
  split at h
  · cases h
  · cases h
    rename_i hs heq
    exact ⟨hs, heq, rfl⟩

theorem fst_mem_distKinds {icd : String} {ccsr : List Row}
    {rel : List (String × Row)} {p : String × Row}
    (hok : get_distantly_related icd ccsr = .ok rel) (h : p ∈ rel) :
    p.1 ∈ distKinds := by
  obtain ⟨hs, _, rfl⟩ := get_distantly_related_ok hok
  simp only [List.mem_append] at h
  rcases h with (h | h) | h <;>
    simp [distKinds, (mem_tagRows.mp h).1]

theorem snd_mem_distantly {icd : String} {ccsr : List Row}
    {rel : List (String × Row)} {p : String × Row}
    (hok : get_distantly_related icd ccsr = .ok rel) (h : p ∈ rel) :
    p.2 ∈ ccsr := by
  obtain ⟨hs, hhs, rfl⟩ := get_distantly_related_ok hok
  simp only [List.mem_append] at h
  rcases h with (h | h) | h
  · refine optRows_subset_of_subset (fun g hg => ?_) _ (mem_tagRows.mp h).2
    subst hg
    exact get_halfsibs_subset hhs
  · exact optRows_subset_of_subset (fun g hg => get_cousins_subset hg) _
      (mem_tagRows.mp h).2
  · exact optRows_subset_of_subset (fun g hg => get_extfam_subset hg) _
      (mem_tagRows.mp h).2

theorem exists_group_of_ne_nil {rel : List (String × Row)} {ks : List String}
    (htags : ∀ p ∈ rel, p.1 ∈ ks) (hne : rel ≠ []) :
    ∃ k ∈ ks, groupFor rel k ≠ [] := by
  cases rel with
  | nil => exact absurd rfl hne
  | cons p rest =>
    refine ⟨p.1, htags p (List.mem_cons_self p rest), ?_⟩
    have : p.2 ∈ groupFor (p :: rest) p.1 :=
      mem_groupFor.mpr (by simp)
    exact List.ne_nil_of_mem this

theorem groupFor_subset_snd {rel : List (String × Row)} {k : String} {r : Row}
    (h : r ∈ groupFor rel k) : r ∈ rel.map Prod.snd := by
  have := mem_groupFor.mp h
  exact List.mem_map.mpr ⟨(k, r), this, rfl⟩

/-! ## Consensus scoring lemmas -/

theorem count_stackCats {rows : List Row} {c : String}
    (hn : ∀ r ∈ rows, r.cats.Nodup) :
    (stackCats rows).count c = (rows.filter (fun r => c ∈ r.cats)).length := by
  induction rows with
  | nil => rfl
  | cons r rest ih =>
    have hr : r.cats.Nodup := hn r (List.mem_cons_self r rest)
    have hrest : ∀ x ∈ rest, x.cats.Nodup :=
      fun x hx => hn x (List.mem_cons_of_mem r hx)
    simp only [stackCats, List.flatMap_cons, List.count_append, List.filter_cons]
    rw [show (rest.flatMap Row.cats) = stackCats rest from rfl, ih hrest]
    by_cases hc : c ∈ r.cats
    · rw [List.count_eq_one_of_mem hr hc]
      simp [hc, Nat.add_comm]
    · rw [List.count_eq_zero.mpr hc]
      simp [hc]

theorem mem_stackCats {rows : List Row} {c : String} :
    c ∈ stackCats rows ↔ ∃ r ∈ rows, c ∈ r.cats := by
  simp [stackCats]

theorem stackCats_ne_nil {rows : List Row}
    (hcats : ∀ r ∈ rows, r.cats ≠ []) (hne : rows ≠ []) :
    stackCats rows ≠ [] := by
  cases rows with
  | nil => exact absurd rfl hne
  | cons r rest =>
    have := hcats r (List.mem_cons_self r rest)
    intro hcon
    rcases List.exists_mem_of_ne_nil _ this with ⟨c, hc⟩
    have : c ∈ stackCats (r :: rest) := mem_stackCats.mpr ⟨r, List.mem_cons_self r rest, hc⟩
    rw [hcon] at this
    cases this

theorem mem_agreedCats {rows : List Row} {c : String}
    (hn : ∀ r ∈ rows, r.cats.Nodup) (hne : rows ≠ []) :
    c ∈ agreedCats rows ↔ ∀ r ∈ rows, c ∈ r.cats := by
  unfold agreedCats
  rw [List.mem_filter]
  constructor
  · rintro ⟨-, hcnt⟩
    rw [beq_iff_eq, count_stackCats hn] at hcnt
    intro r hr
    by_contra hno
    have hsub : (rows.filter (fun r => c ∈ r.cats)).length < rows.length := by
      apply List.length_filter_lt_length_iff_exists.mpr
      exact ⟨r, hr, by simp [hno]⟩
    rw [hcnt] at hsub
    exact Nat.lt_irrefl _ hsub
  · intro hall
    have hfe : rows.filter (fun r => c ∈ r.cats) = rows :=
      List.filter_eq_self.mpr (fun r hr => by simp [hall r hr])
    refine ⟨?_, by rw [beq_iff_eq, count_stackCats hn, hfe]⟩
    rcases List.exists_mem_of_ne_nil rows hne with ⟨r, hr⟩
    exact List.mem_dedup.mpr (mem_stackCats.mpr ⟨r, hr, hall r hr⟩)

theorem mem_percRows {icd tag : String} {rows : List Row} {x : SemiRow} :
    x ∈ percRows icd tag rows ↔
      ∃ c ∈ (stackCats rows).dedup,
        x = ⟨icd, c, pctHundredths ((stackCats rows).count c) rows.length, tag⟩ := by
  simp only [percRows, List.mem_map]
  constructor
  · rintro ⟨c, hc, rfl⟩
    exact ⟨c, hc, rfl⟩
  · rintro ⟨c, hc, rfl⟩
    exact ⟨c, hc, rfl⟩

theorem percRows_queried {icd tag : String} {rows : List Row} {x : SemiRow}
    (h : x ∈ percRows icd tag rows) : x.queried_icd = icd := by
  obtain ⟨c, -, rfl⟩ := mem_percRows.mp h
  rfl

theorem percRows_relationship {icd tag : String} {rows : List Row} {x : SemiRow}
    (h : x ∈ percRows icd tag rows) : x.relationship = tag := by
  obtain ⟨c, -, rfl⟩ := mem_percRows.mp h
  rfl

theorem percRows_ne_nil {icd tag : String} {rows : List Row}
    (h : stackCats rows ≠ []) : percRows icd tag rows ≠ [] := by
  unfold percRows
  intro hcon
  rcases List.exists_mem_of_ne_nil _ h with ⟨c, hc⟩
  have : c ∈ (stackCats rows).dedup := List.mem_dedup.mpr hc
  have : (⟨icd, c, pctHundredths ((stackCats rows).count c) rows.length, tag⟩ : SemiRow)
      ∈ (stackCats rows).dedup.map
        (fun c => (⟨icd, c, pctHundredths ((stackCats rows).count c) rows.length, tag⟩ : SemiRow)) :=
    List.mem_map.mpr ⟨c, this, rfl⟩
  rw [hcon] at this
  cases this

theorem percRows_map_ccsr1 (icd tag : String) (rows : List Row) :
    (percRows icd tag rows).map SemiRow.ccsr_1 = (stackCats rows).dedup := by
  simp [percRows, List.map_map, Function.comp_def]

/-! ## The close-tier loop -/

theorem closeLoop_auto_eq {icd : String} {rel : List (String × Row)} {r : AutoRow} :
    ∀ {ks : List String} {temp : List Row}, closeLoop icd rel ks temp = .auto r →
      ∃ k ∈ ks, groupFor rel k ≠ [] ∧ agreedCats (groupFor rel k) ≠ [] ∧
        r = ⟨icd, k, agreedCats (groupFor rel k), (groupFor rel k).map Row.icd⟩ := by
  intro ks
  induction ks with
  | nil =>
    intro temp h
    rw [closeLoop] at h
    dsimp only at h
    split at h
    · cases h
    · split at h <;> cases h
  | cons k ks ih =>
    intro temp h
    rw [closeLoop] at h
    dsimp only at h
    split at h
    · obtain ⟨k', hk', hg, ha, hr⟩ := ih h
      exact ⟨k', List.mem_cons_of_mem k hk', hg, ha, hr⟩
    · rename_i hgne
      split at h
      · obtain ⟨k', hk', hg, ha, hr⟩ := ih h
        exact ⟨k', List.mem_cons_of_mem k hk', hg, ha, hr⟩
      · rename_i hane
        cases h
        refine ⟨k, List.mem_cons_self k ks, ?_, ?_, rfl⟩
        · intro hcon
          rw [hcon] at hgne
          exact hgne rfl
        · intro hcon
          rw [hcon] at hane
          exact hane rfl

theorem closeLoop_semi_eq {icd : String} {rel : List (String × Row)}
    {rs : List SemiRow} :
    ∀ {ks : List String} {temp : List Row}, closeLoop icd rel ks temp = .semi rs →
      rs = percRows icd "Close" (temp ++ (ks.map (groupFor rel)).flatten) ∧
      rs ≠ [] ∧
      ∀ k ∈ ks, groupFor rel k = [] ∨ agreedCats (groupFor rel k) = [] := by
  intro ks
  induction ks with
  | nil =>
    intro temp h
    rw [closeLoop] at h
    dsimp only at h
    split at h
    · cases h
    · split at h
      · cases h
      · rename_i hperc
        cases h
        refine ⟨by simp, ?_, by simp⟩
        intro hcon
        rw [hcon] at hperc
        exact hperc rfl
  | cons k ks ih =>
    intro temp h
    rw [closeLoop] at h
    dsimp only at h
    split at h
    · rename_i hge
      obtain ⟨h1, h2, h3⟩ := ih h
      have hgnil : groupFor rel k = [] := List.isEmpty_iff.mp hge
      refine ⟨?_, h2, ?_⟩
      · rw [h1]
        simp [hgnil]
      · intro k' hk'
        rcases List.mem_cons.mp hk' with rfl | hk'
        · exact Or.inl hgnil
        · exact h3 k' hk'
    · split at h
      · rename_i hae
        obtain ⟨h1, h2, h3⟩ := ih h
        refine ⟨?_, h2, ?_⟩
        · rw [h1]
          simp
        · intro k' hk'
          rcases List.mem_cons.mp hk' with rfl | hk'
          · exact Or.inr (List.isEmpty_iff.mp hae)
          · exact h3 k' hk'
      · cases h

theorem closeLoop_dropped_eq {icd : String} {rel : List (String × Row)} :
    ∀ {ks : List String} {temp : List Row}, closeLoop icd rel ks temp = .dropped →
      temp = [] ∧ ∀ k ∈ ks, groupFor rel k = [] := by
  intro ks
  induction ks with
  | nil =>
    intro temp h
    rw [closeLoop] at h
    dsimp only at h
    split at h
    · rename_i hte
      exact ⟨List.isEmpty_iff.mp hte, by simp⟩
    · split at h <;> cases h
  | cons k ks ih =>
    intro temp h
    rw [closeLoop] at h
    dsimp only at h
    split at h
    · rename_i hge
      obtain ⟨h1, h2⟩ := ih h
      refine ⟨h1, ?_⟩
      intro k' hk'
      rcases List.mem_cons.mp hk' with rfl | hk'
      · exact List.isEmpty_iff.mp hge
      · exact h2 k' hk'
    · rename_i hge
      split at h
      · obtain ⟨h1, h2⟩ := ih h
        have hg : groupFor rel k = [] := (List.append_eq_nil.mp h1).2
        rw [hg] at hge
        exact absurd rfl hge
      · cases h

theorem closeLoop_of_findSome {icd : String} {rel : List (String × Row)} :
    ∀ {ks : List String} {k : String} {g : List Row},
      (ks.findSome? (fun k =>
        let g := groupFor rel k
        if !g.isEmpty && !(agreedCats g).isEmpty then some (k, g) else none)) =
          some (k, g) →
      ∀ temp, closeLoop icd rel ks temp =
        .auto ⟨icd, k, agreedCats g, g.map Row.icd⟩ := by
  intro ks
  induction ks with
  | nil => intro k g h temp; cases h
  | cons k0 ks ih =>
    intro k g h temp
    rw [List.findSome?_cons] at h
    dsimp only at h
    split at h
    · rename_i b hcond
      split at hcond
      · rename_i hc
        rw [Bool.and_eq_true, Bool.not_eq_true', Bool.not_eq_true'] at hc
        obtain ⟨hge, hae⟩ := hc
        injection hcond with hcond'
        subst hcond'
        injection h with h'
        injection h' with h1 h2
        subst h1
        subst h2
        rw [closeLoop]
        dsimp only
        rw [if_neg (by rw [hge]; exact Bool.false_ne_true),
          if_neg (by rw [hae]; exact Bool.false_ne_true)]
      · cases hcond
    · rename_i hcond
      have hcf : ¬((!(groupFor rel k0).isEmpty &&
          !(agreedCats (groupFor rel k0)).isEmpty) = true) := by
        intro hc
        rw [if_pos hc] at hcond
        cases hcond
      rw [closeLoop]
      dsimp only
      by_cases hge : (groupFor rel k0).isEmpty
      · rw [if_pos hge]
        exact ih h temp
      · rw [if_neg hge]
        have hae : (agreedCats (groupFor rel k0)).isEmpty = true := by
          by_contra hc
          exact hcf (by
            simp [Bool.eq_false_iff.mpr hge, Bool.eq_false_iff.mpr hc])
        rw [if_pos hae]
        exact ih h (temp ++ groupFor rel k0)

/-! ## The distant-tier loop -/

theorem findSome_group {rel : List (String × Row)} :
    ∀ {ks : List String} {k : String} {g : List Row},
      (ks.findSome? (fun k =>
        let g := groupFor rel k
        if g.isEmpty then none else some (k, g))) = some (k, g) →
      k ∈ ks ∧ g = groupFor rel k ∧ g ≠ [] := by
  intro ks
  induction ks with
  | nil => intro k g h; cases h
  | cons k0 ks ih =>
    intro k g h
    rw [List.findSome?_cons] at h
    dsimp only at h
    split at h
    · rename_i b hcond
      split at hcond
      · cases hcond
      · rename_i hge
        injection hcond with hcond'
        subst hcond'
        injection h with h'
        injection h' with h1 h2
        subst h1
        subst h2
        refine ⟨List.mem_cons_self k0 ks, rfl, ?_⟩
        intro hcon
        rw [hcon] at hge
        exact hge rfl
    · rename_i hcond
      obtain ⟨hk, hg, hne⟩ := ih h
      exact ⟨List.mem_cons_of_mem k0 hk, hg, hne⟩

theorem distLoop_of_findSome {icd : String} {rel : List (String × Row)} :
    ∀ {ks : List String} {k : String} {g : List Row},
      (ks.findSome? (fun k =>
        let g := groupFor rel k
        if g.isEmpty then none else some (k, g))) = some (k, g) →
      distLoop icd rel ks =
        (if (agreedCats g).isEmpty then
          (if (percRows icd "Distant" g).isEmpty then .fail
           else .semi (percRows icd "Distant" g))
         else .auto ⟨icd, k, agreedCats g, g.map Row.icd⟩) := by
  intro ks
  induction ks with
  | nil => intro k g h; cases h
  | cons k0 ks ih =>
    intro k g h
    rw [List.findSome?_cons] at h
    dsimp only at h
    split at h
    · rename_i b hcond
      split at hcond
      · cases hcond
      · rename_i hge
        injection hcond with hcond'
        subst hcond'
        injection h with h'
        injection h' with h1 h2
        subst h1
        subst h2
        rw [distLoop]
        dsimp only
        rw [if_neg (by rw [Bool.eq_false_iff.mpr hge]; exact Bool.false_ne_true)]
    · rename_i hcond
      have hge : (groupFor rel k0).isEmpty := by
        by_contra hc
        rw [if_neg hc] at hcond
        cases hcond
      rw [distLoop]
      dsimp only
      rw [if_pos hge]
      exact ih h

theorem distLoop_of_findSome_none {icd : String} {rel : List (String × Row)} :
    ∀ {ks : List String},
      (ks.findSome? (fun k =>
        let g := groupFor rel k
        if g.isEmpty then none else some (k, g))) = none →
      distLoop icd rel ks = .dropped := by
  intro ks
  induction ks with
  | nil => intro h; rfl
  | cons k0 ks ih =>
    intro h
    rw [List.findSome?_eq_none_iff] at h
    have h0 := h k0 (List.mem_cons_self k0 ks)
    dsimp only at h0
    have hge : (groupFor rel k0).isEmpty := by
      by_contra hc
      rw [if_neg hc] at h0
      cases h0
    rw [distLoop]
    dsimp only
    rw [if_pos hge]
    exact ih (List.findSome?_eq_none_iff.mpr
      (fun k hk => h k (List.mem_cons_of_mem k0 hk)))

/-! ## Per-code resolution characterizations -/

theorem closeResolve_auto {ccsr : List Row} {icd : String} {r : AutoRow}
    (h : closeResolve ccsr icd = .auto r) :
    ∃ k ∈ closeKinds, groupFor (get_closely_related icd ccsr) k ≠ [] ∧
      agreedCats (groupFor (get_closely_related icd ccsr) k) ≠ [] ∧
      r = ⟨icd, k, agreedCats (groupFor (get_closely_related icd ccsr) k),
        (groupFor (get_closely_related icd ccsr) k).map Row.icd⟩ := by
  rw [closeResolve] at h
  split at h
  · cases h
  · exact closeLoop_auto_eq h

theorem closeResolve_semi {ccsr : List Row} {icd : String} {rs : List SemiRow}
    (h : closeResolve ccsr icd = .semi rs) :
    get_closely_related icd ccsr ≠ [] ∧
    rs = percRows icd "Close" ((get_closely_related icd ccsr).map Prod.snd) ∧
    rs ≠ [] ∧
    ∀ k ∈ closeKinds, groupFor (get_closely_related icd ccsr) k = [] ∨
      agreedCats (groupFor (get_closely_related icd ccsr) k) = [] := by
  rw [closeResolve] at h
  split at h
  · cases h
  · rename_i hne
    obtain ⟨h1, h2, h3⟩ := closeLoop_semi_eq h
    refine ⟨by simpa using hne, ?_, h2, h3⟩
    rw [h1, List.nil_append]
    exact congrArg (percRows icd "Close") (flatten_groups_close icd ccsr)

theorem closeResolve_ne_dropped (ccsr : List Row) (icd : String) :
    closeResolve ccsr icd ≠ .dropped := by
  intro h
  rw [closeResolve] at h
  split at h
  · cases h
  · rename_i hne
    obtain ⟨-, hall⟩ := closeLoop_dropped_eq h
    obtain ⟨k, hk, hgne⟩ := exists_group_of_ne_nil
      (fun p hp => fst_mem_closeKinds hp) (by simpa using hne)
    exact hgne (hall k hk)

theorem distResolve_ok_eq {ccsr : List Row} {icd : String} {r : CodeRes}
    (h : distResolve ccsr icd = .ok r) :
    (firstNonemptyDist icd ccsr = none ∧ r = .fail) ∨
    (∃ k g, firstNonemptyDist icd ccsr = some (k, g) ∧ g ≠ [] ∧
      r = (if (agreedCats g).isEmpty then
             (if (percRows icd "Distant" g).isEmpty then .fail
              else .semi (percRows icd "Distant" g))
           else .auto ⟨icd, k, agreedCats g, g.map Row.icd⟩)) := by
  rw [distResolve] at h
  split at h
  · cases h
  · rename_i rel hok
    injection h with h'
    subst h'
    rw [firstNonemptyDist, hok]
    dsimp only
    by_cases hre : rel.isEmpty
    · left
      have hnil : rel = [] := List.isEmpty_iff.mp hre
      subst hnil
      constructor
      · apply List.findSome?_eq_none_iff.mpr
        intro k hk
        dsimp only
        have hg : (groupFor ([] : List (String × Row)) k).isEmpty = true := rfl
        rw [if_pos hg]
      · have he : ([] : List (String × Row)).isEmpty = true := rfl
        rw [if_pos he]
    · right
      cases hfind : distKinds.findSome? (fun k =>
        let g := groupFor rel k
        if g.isEmpty then none else some (k, g)) with
      | none =>
        exfalso
        obtain ⟨k, hk, hgne⟩ := exists_group_of_ne_nil
          (fun p hp => fst_mem_distKinds hok hp)
          (fun hn => hre (by rw [hn]; rfl))
        have hnone := List.findSome?_eq_none_iff.mp hfind k hk
        dsimp only at hnone
        rw [if_neg (by simpa using hgne)] at hnone
        cases hnone
      | some kg =>
        obtain ⟨k, g⟩ := kg
        obtain ⟨hk, hgeq, hgne⟩ := findSome_group hfind
        refine ⟨k, g, rfl, hgne, ?_⟩
        rw [if_neg hre]
        exact distLoop_of_findSome hfind

theorem distResolve_auto {ccsr : List Row} {icd : String} {r : AutoRow}
    (h : distResolve ccsr icd = .ok (.auto r)) :
    ∃ k g, firstNonemptyDist icd ccsr = some (k, g) ∧ g ≠ [] ∧
      agreedCats g ≠ [] ∧ r = ⟨icd, k, agreedCats g, g.map Row.icd⟩ := by
  rcases distResolve_ok_eq h with ⟨-, hcon⟩ | ⟨k, g, hfind, hgne, hr⟩
  · cases hcon
  · refine ⟨k, g, hfind, hgne, ?_⟩
    by_cases hae : (agreedCats g).isEmpty
    · rw [if_pos hae] at hr
      split at hr <;> cases hr
    · rw [if_neg hae] at hr
      injection hr with hr'
      exact ⟨by simpa using hae, hr'⟩

theorem distResolve_semi {ccsr : List Row} {icd : String} {rs : List SemiRow}
    (h : distResolve ccsr icd = .ok (.semi rs)) :
    ∃ k g, firstNonemptyDist icd ccsr = some (k, g) ∧ g ≠ [] ∧
      agreedCats g = [] ∧ rs = percRows icd "Distant" g ∧ rs ≠ [] := by
  rcases distResolve_ok_eq h with ⟨-, hcon⟩ | ⟨k, g, hfind, hgne, hr⟩
  · cases hcon
  · refine ⟨k, g, hfind, hgne, ?_⟩
    by_cases hae : (agreedCats g).isEmpty
    · rw [if_pos hae] at hr
      by_cases hpe : (percRows icd "Distant" g).isEmpty
      · rw [if_pos hpe] at hr
        cases hr
      · rw [if_neg hpe] at hr
        injection hr with hr'
        refine ⟨List.isEmpty_iff.mp hae, hr', ?_⟩
        rw [hr']
        simpa using hpe
    · rw [if_neg hae] at hr
      cases hr

theorem distResolve_ne_ok_dropped (ccsr : List Row) (icd : String) :
    distResolve ccsr icd ≠ .ok .dropped := by
  intro h
  rcases distResolve_ok_eq h with ⟨-, hcon⟩ | ⟨k, g, -, -, hr⟩
  · cases hcon
  · by_cases hae : (agreedCats g).isEmpty
    · rw [if_pos hae] at hr
      split at hr <;> cases hr
    · rw [if_neg hae] at hr
      cases hr

/-! ## Each emitted row carries its queried code -/

theorem closeResolve_auto_queried {ccsr : List Row} {icd : String} {r : AutoRow}
    (h : closeResolve ccsr icd = .auto r) : r.queried_icd = icd := by
  obtain ⟨k, -, -, -, hr⟩ := closeResolve_auto h
  rw [hr]

theorem closeResolve_semi_queried {ccsr : List Row} {icd : String}
    {rs : List SemiRow} (h : closeResolve ccsr icd = .semi rs) :
    ∀ x ∈ rs, x.queried_icd = icd := by
  obtain ⟨-, hrs, -, -⟩ := closeResolve_semi h
  intro x hx
  rw [hrs] at hx
  exact percRows_queried hx

theorem closeResolve_semi_relationship {ccsr : List Row} {icd : String}
    {rs : List SemiRow} (h : closeResolve ccsr icd = .semi rs) :
    ∀ x ∈ rs, x.relationship = "Close" := by
  obtain ⟨-, hrs, -, -⟩ := closeResolve_semi h
  intro x hx
  rw [hrs] at hx
  exact percRows_relationship hx

theorem distResolve_auto_queried {ccsr : List Row} {icd : String} {r : AutoRow}
    (h : distResolve ccsr icd = .ok (.auto r)) : r.queried_icd = icd := by
  obtain ⟨k, g, -, -, -, hr⟩ := distResolve_auto h
  rw [hr]

theorem distResolve_semi_queried {ccsr : List Row} {icd : String}
    {rs : List SemiRow} (h : distResolve ccsr icd = .ok (.semi rs)) :
    ∀ x ∈ rs, x.queried_icd = icd := by
  obtain ⟨k, g, -, -, -, hrs, -⟩ := distResolve_semi h
  intro x hx
  rw [hrs] at hx
  exact percRows_queried hx

theorem distResolve_semi_relationship {ccsr : List Row} {icd : String}
    {rs : List SemiRow} (h : distResolve ccsr icd = .ok (.semi rs)) :
    ∀ x ∈ rs, x.relationship = "Distant" := by
  obtain ⟨k, g, -, -, -, hrs, -⟩ := distResolve_semi h
  intro x hx
  rw [hrs] at hx
  exact percRows_relationship hx

/-! ## Resolution through both tiers (`resolveCode`) -/

theorem resolveCode_close_auto {ccsr : List Row} {icd : String} {r : AutoRow}
    (h : closeResolve ccsr icd = .auto r) :
    resolveCode ccsr icd = .ok (.auto r) := by
  rw [resolveCode, h]

theorem resolveCode_close_semi {ccsr : List Row} {icd : String} {rs : List SemiRow}
    (h : closeResolve ccsr icd = .semi rs) :
    resolveCode ccsr icd = .ok (.semi rs) := by
  rw [resolveCode, h]

theorem resolveCode_close_fail {ccsr : List Row} {icd : String}
    (h : closeResolve ccsr icd = .fail) :
    resolveCode ccsr icd = distResolve ccsr icd := by
  rw [resolveCode, h]

theorem resolveCode_cases {ccsr : List Row} {icd : String} {c : CodeRes}
    (h : resolveCode ccsr icd = .ok c) :
    closeResolve ccsr icd = c ∧ c ≠ .fail ∧ c ≠ .dropped ∨
    closeResolve ccsr icd = .fail ∧ distResolve ccsr icd = .ok c := by
  rw [resolveCode] at h
  cases hc : closeResolve ccsr icd with
  | auto r =>
    rw [hc] at h
    injection h with h'
    subst h'
    refine Or.inl ⟨rfl, ?_, ?_⟩
    · intro hcon
      cases hcon
    · intro hcon
      cases hcon
  | semi rs =>
    rw [hc] at h
    injection h with h'
    subst h'
    refine Or.inl ⟨rfl, ?_, ?_⟩
    · intro hcon
      cases hcon
    · intro hcon
      cases hcon
  | fail =>
    rw [hc] at h
    exact Or.inr ⟨rfl, h⟩
  | dropped =>
    rw [hc] at h
    injection h with h'
    subst h'
    exact absurd hc (closeResolve_ne_dropped ccsr icd)

theorem resolveCode_ne_ok_dropped (ccsr : List Row) (icd : String) :
    resolveCode ccsr icd ≠ .ok .dropped := by
  intro h
  rcases resolveCode_cases h with ⟨hc, -, hd⟩ | ⟨-, hd⟩
  · exact hd rfl
  · exact distResolve_ne_ok_dropped ccsr icd hd

theorem resolveCode_auto_queried {ccsr : List Row} {icd : String} {r : AutoRow}
    (h : resolveCode ccsr icd = .ok (.auto r)) : r.queried_icd = icd := by
  rcases resolveCode_cases h with ⟨hc, -, -⟩ | ⟨-, hd⟩
  · exact closeResolve_auto_queried hc
  · exact distResolve_auto_queried hd

theorem resolveCode_semi_queried {ccsr : List Row} {icd : String}
    {rs : List SemiRow} (h : resolveCode ccsr icd = .ok (.semi rs)) :
    ∀ x ∈ rs, x.queried_icd = icd := by
  rcases resolveCode_cases h with ⟨hc, -, -⟩ | ⟨-, hd⟩
  · exact closeResolve_semi_queried hc
  · exact distResolve_semi_queried hd

theorem resolveCode_semi_ne_nil {ccsr : List Row} {icd : String}
    {rs : List SemiRow} (h : resolveCode ccsr icd = .ok (.semi rs)) : rs ≠ [] := by
  rcases resolveCode_cases h with ⟨hc, -, -⟩ | ⟨-, hd⟩
  · exact (closeResolve_semi hc).2.2.1
  · obtain ⟨k, g, -, -, -, -, hne⟩ := distResolve_semi hd
    exact hne

/-! ## Assembling the output collections -/

theorem mem_sortStr {l : List String} {s : String} : s ∈ sortStr l ↔ s ∈ l :=
  List.mem_insertionSort strLe

theorem mem_autosOf {l : List (String × CodeRes)} {r : AutoRow} :
    r ∈ autosOf l ↔ ∃ icd, (icd, CodeRes.auto r) ∈ l := by
  unfold autosOf
  rw [List.mem_filterMap]
  constructor
  · rintro ⟨p, hp, hr⟩
    obtain ⟨icd, c⟩ := p
    cases c with
    | auto r' =>
      injection hr with hr'
      subst hr'
      exact ⟨icd, hp⟩
    | semi rs => cases hr
    | fail => cases hr
    | dropped => cases hr
  · rintro ⟨icd, hp⟩
    exact ⟨(icd, CodeRes.auto r), hp, rfl⟩

theorem mem_semisOf {l : List (String × CodeRes)} {x : SemiRow} :
    x ∈ semisOf l ↔ ∃ icd rs, (icd, CodeRes.semi rs) ∈ l ∧ x ∈ rs := by
  unfold semisOf
  rw [List.mem_flatten]
  constructor
  · rintro ⟨rs, hrs, hx⟩
    rw [List.mem_filterMap] at hrs
    obtain ⟨p, hp, hr⟩ := hrs
    obtain ⟨icd, c⟩ := p
    cases c with
    | auto r' => cases hr
    | semi rs' =>
      injection hr with hr'
      subst hr'
      exact ⟨icd, _, hp, hx⟩
    | fail => cases hr
    | dropped => cases hr
  · rintro ⟨icd, rs, hp, hx⟩
    refine ⟨rs, List.mem_filterMap.mpr ⟨(icd, CodeRes.semi rs), hp, rfl⟩, hx⟩

theorem mem_failsOf {l : List (String × CodeRes)} {icd : String} :
    icd ∈ failsOf l ↔ (icd, CodeRes.fail) ∈ l := by
  unfold failsOf
  rw [List.mem_filterMap]
  constructor
  · rintro ⟨p, hp, hr⟩
    obtain ⟨icd', c⟩ := p
    cases c with
    | auto r' => cases hr
    | semi rs => cases hr
    | fail =>
      injection hr with hr'
      subst hr'
      exact hp
    | dropped => cases hr
  · intro hp
    exact ⟨(icd, CodeRes.fail), hp, rfl⟩

theorem mem_closePhase {ccsr : List Row} {us : List String}
    {icd : String} {c : CodeRes} :
    (icd, c) ∈ closePhase ccsr us ↔ icd ∈ us ∧ c = closeResolve ccsr icd := by
  unfold closePhase
  rw [List.mem_map]
  constructor
  · rintro ⟨icd', hicd', heq⟩
    injection heq with h1 h2
    subst h1
    exact ⟨mem_sortStr.mp hicd', h2.symm⟩
  · rintro ⟨hicd, rfl⟩
    exact ⟨icd, mem_sortStr.mpr hicd, rfl⟩

theorem closePhase_map_fst (ccsr : List Row) (us : List String) :
    (closePhase ccsr us).map Prod.fst = sortStr us := by
  unfold closePhase
  rw [List.map_map]
  simp [Function.comp_def]

theorem closePhase_semi_queried {ccsr : List Row} {us : List String} :
    ∀ p ∈ closePhase ccsr us, ∀ rs, p.2 = CodeRes.semi rs →
      ∀ x ∈ rs, x.queried_icd = p.1 := by
  rintro ⟨icd, c⟩ hp rs hc x hx
  obtain ⟨-, rfl⟩ := mem_closePhase.mp hp
  dsimp only at hc ⊢
  exact closeResolve_semi_queried hc x hx

theorem distPhase_ok_mem {ccsr : List Row} :
    ∀ {l : List String} {dl : List (String × CodeRes)},
      distPhase ccsr l = .ok dl →
      ∀ icd c, ((icd, c) ∈ dl ↔ icd ∈ l ∧ distResolve ccsr icd = .ok c) := by
  intro l
  induction l with
  | nil =>
    intro dl h icd c
    injection h with h'
    subst h'
    simp
  | cons icd0 rest ih =>
    intro dl h icd c
    rw [distPhase] at h
    split at h
    · cases h
    · rename_i c0 hc0
      split at h
      · cases h
      · rename_i dl' hdl'
        injection h with h'
        subst h'
        constructor
        · intro hm
          rcases List.mem_cons.mp hm with heq | hm'
          · injection heq with h1 h2
            subst h1
            subst h2
            exact ⟨List.mem_cons_self _ _, hc0⟩
          · obtain ⟨hicd, hres⟩ := (ih hdl' icd c).mp hm'
            exact ⟨List.mem_cons_of_mem icd0 hicd, hres⟩
        · rintro ⟨hicd, hres⟩
          rcases List.mem_cons.mp hicd with rfl | hicd'
          · rw [hres] at hc0
            injection hc0 with hc0'
            subst hc0'
            exact List.mem_cons_self _ _
          · exact List.mem_cons_of_mem _ ((ih hdl' icd c).mpr ⟨hicd', hres⟩)

theorem distPhase_ok_forall {ccsr : List Row} :
    ∀ {l : List String} {dl : List (String × CodeRes)},
      distPhase ccsr l = .ok dl →
      ∀ icd ∈ l, ∃ c, distResolve ccsr icd = .ok c := by
  intro l
  induction l with
  | nil => intro dl h icd hicd; cases hicd
  | cons icd0 rest ih =>
    intro dl h icd hicd
    rw [distPhase] at h
    split at h
    · cases h
    · rename_i c0 hc0
      split at h
      · cases h
      · rename_i dl' hdl'
        rcases List.mem_cons.mp hicd with rfl | hicd'
        · exact ⟨c0, hc0⟩
        · exact ih hdl' icd hicd'

theorem distPhase_ok_keys {ccsr : List Row} :
    ∀ {l : List String} {dl : List (String × CodeRes)},
      distPhase ccsr l = .ok dl → dl.map Prod.fst = l := by
  intro l
  induction l with
  | nil =>
    intro dl h
    injection h with h'
    subst h'
    rfl
  | cons icd0 rest ih =>
    intro dl h
    rw [distPhase] at h
    split at h
    · cases h
    · split at h
      · cases h
      · rename_i dl' hdl'
        injection h with h'
        subst h'
        simp [ih hdl']

theorem distPhase_semi_queried {ccsr : List Row} {l : List String}
    {dl : List (String × CodeRes)} (h : distPhase ccsr l = .ok dl) :
    ∀ p ∈ dl, ∀ rs, p.2 = CodeRes.semi rs → ∀ x ∈ rs, x.queried_icd = p.1 := by
  rintro ⟨icd, c⟩ hp rs hc x hx
  obtain ⟨-, hres⟩ := (distPhase_ok_mem h icd c).mp hp
  dsimp only at hc
  subst hc
  exact distResolve_semi_queried hres x hx

theorem get_predicted_ok {us : List String} {ccsr : List Row}
    {out : List AutoRow × List SemiRow × List String}
    (h : get_predicted us ccsr = .ok out) :
    ∃ dl, distPhase ccsr (sortStr (failsOf (closePhase ccsr us))) = .ok dl ∧
      out = ((autosOf (closePhase ccsr us) ++ autosOf dl).insertionSort autoLE,
        (semisOf (closePhase ccsr us) ++ semisOf dl).insertionSort semiLE,
        sortStr (failsOf dl)) := by
  rw [get_predicted] at h
  split at h
  · cases h
  · rename_i dl hdl
    injection h with h'
    exact ⟨dl, hdl, h'.symm⟩

theorem mem_automatic {us : List String} {ccsr a se f}
    (h : get_predicted us ccsr = .ok (a, se, f)) {r : AutoRow} :
    r ∈ a ↔ ∃ icd ∈ us, resolveCode ccsr icd = .ok (.auto r) := by
  obtain ⟨dl, hdl, hout⟩ := get_predicted_ok h
  injection hout with ha h2
  injection h2 with hse hf
  subst ha
  rw [List.mem_insertionSort, List.mem_append]
  constructor
  · rintro (hm | hm)
    · obtain ⟨icd, hp⟩ := mem_autosOf.mp hm
      obtain ⟨hicd, hc⟩ := mem_closePhase.mp hp
      exact ⟨icd, hicd, resolveCode_close_auto hc.symm⟩
    · obtain ⟨icd, hp⟩ := mem_autosOf.mp hm
      obtain ⟨hicd, hres⟩ := (distPhase_ok_mem hdl icd _).mp hp
      obtain ⟨hicd', hcf⟩ := mem_closePhase.mp (mem_failsOf.mp (mem_sortStr.mp hicd))
      exact ⟨icd, hicd', by rw [resolveCode_close_fail hcf.symm]; exact hres⟩
  · rintro ⟨icd, hicd, hres⟩
    rcases resolveCode_cases hres with ⟨hc, -, -⟩ | ⟨hcf, hd⟩
    · exact Or.inl (mem_autosOf.mpr ⟨icd, mem_closePhase.mpr ⟨hicd, hc.symm⟩⟩)
    · refine Or.inr (mem_autosOf.mpr ⟨icd, (distPhase_ok_mem hdl icd _).mpr ⟨?_, hd⟩⟩)
      exact mem_sortStr.mpr (mem_failsOf.mpr (mem_closePhase.mpr ⟨hicd, hcf.symm⟩))

theorem mem_semiautomatic {us : List String} {ccsr a se f}
    (h : get_predicted us ccsr = .ok (a, se, f)) {x : SemiRow} :
    x ∈ se ↔ ∃ icd ∈ us, ∃ rs, resolveCode ccsr icd = .ok (.semi rs) ∧ x ∈ rs := by
  obtain ⟨dl, hdl, hout⟩ := get_predicted_ok h
  injection hout with ha h2
  injection h2 with hse hf
  subst hse
  rw [List.mem_insertionSort, List.mem_append]
  constructor
  · rintro (hm | hm)
    · obtain ⟨icd, rs, hp, hx⟩ := mem_semisOf.mp hm
      obtain ⟨hicd, hc⟩ := mem_closePhase.mp hp
      exact ⟨icd, hicd, rs, resolveCode_close_semi hc.symm, hx⟩
    · obtain ⟨icd, rs, hp, hx⟩ := mem_semisOf.mp hm
      obtain ⟨hicd, hres⟩ := (distPhase_ok_mem hdl icd _).mp hp
      obtain ⟨hicd', hcf⟩ := mem_closePhase.mp (mem_failsOf.mp (mem_sortStr.mp hicd))
      exact ⟨icd, hicd', rs, by rw [resolveCode_close_fail hcf.symm]; exact hres, hx⟩
  · rintro ⟨icd, hicd, rs, hres, hx⟩
    rcases resolveCode_cases hres with ⟨hc, -, -⟩ | ⟨hcf, hd⟩
    · exact Or.inl (mem_semisOf.mpr ⟨icd, rs, mem_closePhase.mpr ⟨hicd, hc.symm⟩, hx⟩)
    · refine Or.inr (mem_semisOf.mpr ⟨icd, rs,
        (distPhase_ok_mem hdl icd _).mpr ⟨?_, hd⟩, hx⟩)
      exact mem_sortStr.mpr (mem_failsOf.mpr (mem_closePhase.mpr ⟨hicd, hcf.symm⟩))

theorem mem_failed {us : List String} {ccsr a se f}
    (h : get_predicted us ccsr = .ok (a, se, f)) {icd : String} :
    icd ∈ f ↔ icd ∈ us ∧ resolveCode ccsr icd = .ok .fail := by
  obtain ⟨dl, hdl, hout⟩ := get_predicted_ok h
  injection hout with ha h2
  injection h2 with hse hf
  subst hf
  rw [mem_sortStr, mem_failsOf]
  rw [distPhase_ok_mem hdl icd CodeRes.fail]
  constructor
  · rintro ⟨hicd, hres⟩
    obtain ⟨hicd', hcf⟩ := mem_closePhase.mp (mem_failsOf.mp (mem_sortStr.mp hicd))
    exact ⟨hicd', by rw [resolveCode_close_fail hcf.symm]; exact hres⟩
  · rintro ⟨hicd, hres⟩
    rcases resolveCode_cases hres with ⟨-, hne, -⟩ | ⟨hcf, hd⟩
    · exact absurd rfl hne
    · exact ⟨mem_sortStr.mpr (mem_failsOf.mpr (mem_closePhase.mpr ⟨hicd, hcf.symm⟩)), hd⟩

theorem resolveCode_isOk {us : List String} {ccsr : List Row}
    {out : List AutoRow × List SemiRow × List String}
    (h : get_predicted us ccsr = .ok out) {icd : String} (hicd : icd ∈ us) :
    ∃ c, resolveCode ccsr icd = .ok c ∧ c ≠ .dropped := by
  obtain ⟨dl, hdl, -⟩ := get_predicted_ok h
  cases hc : closeResolve ccsr icd with
  | auto r =>
    exact ⟨.auto r, resolveCode_close_auto hc, fun hcon => by cases hcon⟩
  | semi rs =>
    exact ⟨.semi rs, resolveCode_close_semi hc, fun hcon => by cases hcon⟩
  | fail =>
    have hmem : icd ∈ sortStr (failsOf (closePhase ccsr us)) :=
      mem_sortStr.mpr (mem_failsOf.mpr (mem_closePhase.mpr ⟨hicd, hc.symm⟩))
    obtain ⟨c, hcres⟩ := distPhase_ok_forall hdl icd hmem
    refine ⟨c, by rw [resolveCode_close_fail hc]; exact hcres, ?_⟩
    intro hcon
    subst hcon
    exact distResolve_ne_ok_dropped ccsr icd hcres
  | dropped =>
    exact absurd hc (closeResolve_ne_dropped ccsr icd)

/-! # The specification's claims -/

/-- C1 (amended): provided `get_predicted` completes without raising (the
half-sibling digit-conversion `ValueError` is the only exception path), every
input code is placed in exactly one of the three output collections: as a row
of `automatic`, as at least one row of `semiautomatic`, or as an entry of
`failed` — never in two of them and never in none.  (The unamended claim fails
only because `get_predicted` can raise; see the counterexample.) -/
theorem claim_C1_partition {us : List String} {ccsr : List Row}
    {out : List AutoRow × List SemiRow × List String}
    (h : get_predicted us ccsr = .ok out) {icd : String} (hicd : icd ∈ us) :
    ExactlyOne out icd := by
  obtain ⟨a, se, f⟩ := out
  obtain ⟨c, hres, hnd⟩ := resolveCode_isOk h hicd
  have hA : memAuto a icd ↔ (∃ r, c = CodeRes.auto r) := by
    constructor
    · rintro ⟨r, hr, hq⟩
      obtain ⟨icd', hicd', hres'⟩ := (mem_automatic h).mp hr
      have heq : icd' = icd := by
        have h1 := resolveCode_auto_queried hres'
        rw [hq] at h1
        exact h1.symm
      subst heq
      rw [hres] at hres'
      injection hres' with h'
      exact ⟨r, h'⟩
    · rintro ⟨r, rfl⟩
      exact ⟨r, (mem_automatic h).mpr ⟨icd, hicd, hres⟩,
        resolveCode_auto_queried hres⟩
  have hS : memSemi se icd ↔ (∃ rs, c = CodeRes.semi rs) := by
    constructor
    · rintro ⟨x, hx, hq⟩
      obtain ⟨icd', hicd', rs, hres', hxrs⟩ := (mem_semiautomatic h).mp hx
      have heq : icd' = icd := by
        have h1 := resolveCode_semi_queried hres' x hxrs
        rw [hq] at h1
        exact h1.symm
      subst heq
      rw [hres] at hres'
      injection hres' with h'
      exact ⟨rs, h'⟩
    · rintro ⟨rs, rfl⟩
      obtain ⟨x, hx⟩ := List.exists_mem_of_ne_nil rs (resolveCode_semi_ne_nil hres)
      exact ⟨x, (mem_semiautomatic h).mpr ⟨icd, hicd, rs, hres, hx⟩,
        resolveCode_semi_queried hres x hx⟩
  have hF : icd ∈ f ↔ c = CodeRes.fail := by
    rw [mem_failed h]
    constructor
    · rintro ⟨-, hres'⟩
      rw [hres] at hres'
      exact (Except.ok.injEq _ _).mp hres'
    · rintro rfl
      exact ⟨hicd, hres⟩
  cases c with
  | auto r =>
    refine ⟨Or.inl (hA.mpr ⟨r, rfl⟩), ?_, ?_, ?_⟩
    · rintro ⟨-, hs⟩
      obtain ⟨rs, hrs⟩ := hS.mp hs
      cases hrs
    · rintro ⟨-, hff⟩
      cases hF.mp hff
    · rintro ⟨hs, -⟩
      obtain ⟨rs, hrs⟩ := hS.mp hs
      cases hrs
  | semi rs =>
    refine ⟨Or.inr (Or.inl (hS.mpr ⟨rs, rfl⟩)), ?_, ?_, ?_⟩
    · rintro ⟨ha, -⟩
      obtain ⟨r, hr⟩ := hA.mp ha
      cases hr
    · rintro ⟨ha, -⟩
      obtain ⟨r, hr⟩ := hA.mp ha
      cases hr
    · rintro ⟨-, hff⟩
      cases hF.mp hff
  | fail =>
    refine ⟨Or.inr (Or.inr (hF.mpr rfl)), ?_, ?_, ?_⟩
    · rintro ⟨ha, -⟩
      obtain ⟨r, hr⟩ := hA.mp ha
      cases hr
    · rintro ⟨ha, -⟩
      obtain ⟨r, hr⟩ := hA.mp ha
      cases hr
    · rintro ⟨hs, -⟩
      obtain ⟨rs', hrs⟩ := hS.mp hs
      cases hrs
  | dropped => exact absurd rfl hnd

/-- C1 counterexample: on the well-formed one-row reference table `A0111 → X`
and the single query code `A01xx` (not directly matchable), `get_predicted`
raises the half-sibling `ValueError` instead of placing the code in any of the
three collections, so the claim as stated — for *every* well-formed table and
query list — is false. -/
theorem claim_C1_counterexample :
    WellFormedTable [⟨"A0111", "X", ["X"]⟩] ∧
      get_predicted ["A01xx"] [⟨"A0111", "X", ["X"]⟩] = .error () :=
  ⟨by decide, rfl⟩

/-- C1 witness: a concrete run in which the amended claim's hypotheses hold
(query `B20`, siblings `B21 → Y`, `B22 → Z`, no agreement). -/
theorem claim_C1_witness :
    get_predicted ["B20"] [⟨"B21", "Y", ["Y"]⟩, ⟨"B22", "Z", ["Z"]⟩] =
      .ok ([], [⟨"B20", "Y", 5000, "Close"⟩, ⟨"B20", "Z", 5000, "Close"⟩], []) ∧
    ExactlyOne ([], [⟨"B20", "Y", 5000, "Close"⟩, ⟨"B20", "Z", 5000, "Close"⟩], [])
      "B20" :=
  ⟨rfl, @claim_C1_partition ["B20"] [⟨"B21", "Y", ["Y"]⟩, ⟨"B22", "Z", ["Z"]⟩]
    ([], [⟨"B20", "Y", 5000, "Close"⟩, ⟨"B20", "Z", 5000, "Close"⟩], [])
    rfl "B20" (by decide)⟩

theorem findSome_agreed {rel : List (String × Row)} :
    ∀ {ks : List String} {k : String} {g : List Row},
      (ks.findSome? (fun k =>
        let g := groupFor rel k
        if !g.isEmpty && !(agreedCats g).isEmpty then some (k, g) else none)) =
          some (k, g) →
      g = groupFor rel k ∧ g ≠ [] ∧ agreedCats g ≠ [] := by
  intro ks
  induction ks with
  | nil => intro k g h; cases h
  | cons k0 ks ih =>
    intro k g h
    rw [List.findSome?_cons] at h
    dsimp only at h
    split at h
    · rename_i b hcond
      split at hcond
      · rename_i hc
        rw [Bool.and_eq_true, Bool.not_eq_true', Bool.not_eq_true'] at hc
        obtain ⟨hge, hae⟩ := hc
        injection hcond with hcond'
        subst hcond'
        injection h with h'
        injection h' with h1 h2
        subst h1
        subst h2
        exact ⟨rfl, by simpa using hge, by simpa using hae⟩
      · cases hcond
    · exact ih h

/-- C3: within the close tier the kinds are evaluated in the fixed order
Children, Siblings, Parents, and the first kind whose non-empty group has a
non-empty fully-agreed category set decides the code as Automatic — with that
kind as `deciding_relationship` and that group's codes as `related_codes` —
regardless of what the later close kinds would have yielded. -/
theorem claim_C3_close_first_agreed {icd : String} {ccsr : List Row}
    {k : String} {g : List Row}
    (h : firstAgreedClose icd ccsr = some (k, g)) :
    closeResolve ccsr icd = .auto ⟨icd, k, agreedCats g, g.map Row.icd⟩ := by
  rw [firstAgreedClose] at h
  obtain ⟨hgeq, hgne, -⟩ := findSome_agreed h
  rw [closeResolve]
  have hrne : ¬ (get_closely_related icd ccsr).isEmpty = true := by
    intro hc
    rw [List.isEmpty_iff.mp hc] at hgeq
    exact hgne hgeq
  rw [if_neg hrne]
  exact closeLoop_of_findSome h []

/-- C3 witness: with reference rows `A011 → X` (a child of `A01`) and
`A02 → Y` (a sibling of `A01`), both the Children and the Siblings group fully
agree, yet the code is decided by Children. -/
theorem claim_C3_witness :
    firstAgreedClose "A01" [⟨"A011", "X", ["X"]⟩, ⟨"A02", "Y", ["Y"]⟩] =
      some ("Children", [⟨"A011", "X", ["X"]⟩]) ∧
    agreedCats (optRows (get_sibs "A01" [⟨"A011", "X", ["X"]⟩, ⟨"A02", "Y", ["Y"]⟩])) ≠ [] ∧
    closeResolve [⟨"A011", "X", ["X"]⟩, ⟨"A02", "Y", ["Y"]⟩] "A01" =
      .auto ⟨"A01", "Children", ["X"], ["A011"]⟩ :=
  ⟨rfl, by decide,
    @claim_C3_close_first_agreed "A01" [⟨"A011", "X", ["X"]⟩, ⟨"A02", "Y", ["Y"]⟩]
      "Children" [⟨"A011", "X", ["X"]⟩] rfl⟩

theorem firstNonemptyDist_subset {icd : String} {ccsr : List Row}
    {k : String} {g : List Row} (h : firstNonemptyDist icd ccsr = some (k, g)) :
    ∀ r ∈ g, r ∈ ccsr := by
  rw [firstNonemptyDist] at h
  split at h
  · cases h
  · rename_i rel hok
    obtain ⟨-, hgeq, -⟩ := findSome_group h
    intro r hr
    rw [hgeq] at hr
    obtain ⟨p, hp, hsnd⟩ := List.mem_map.mp (groupFor_subset_snd hr)
    rw [← hsnd]
    exact snd_mem_distantly hok hp

/-- C5: in the distant tier the kinds Half-Siblings, Cousins, Extended Family
are evaluated in order and only the first kind with at least one match
determines the outcome: its group decides Automatic (full agreement) or
SemiAutomatic (no full agreement), later distant kinds are never merged in,
and the code is Failed exactly when no distant kind matched at all. -/
theorem claim_C5_distant_single_kind {ccsr : List Row} {icd : String}
    {r : CodeRes} (hwf : WellFormedTable ccsr)
    (h : distResolve ccsr icd = .ok r) :
    (firstNonemptyDist icd ccsr = none → r = .fail) ∧
    (∀ k g, firstNonemptyDist icd ccsr = some (k, g) →
      (agreedCats g ≠ [] → r = .auto ⟨icd, k, agreedCats g, g.map Row.icd⟩) ∧
      (agreedCats g = [] → r = .semi (percRows icd "Distant" g)) ∧
      r ≠ .fail) := by
  rcases distResolve_ok_eq h with ⟨hn, hrf⟩ | ⟨k0, g0, hfind, hgne, hr⟩
  · constructor
    · intro _
      exact hrf
    · intro k g hs
      rw [hn] at hs
      cases hs
  · constructor
    · intro hn
      rw [hn] at hfind
      cases hfind
    · intro k g hs
      rw [hfind] at hs
      injection hs with hs'
      injection hs' with h1 h2
      subst h1
      subst h2
      have hsub : ∀ x ∈ g0, x ∈ ccsr := firstNonemptyDist_subset hfind
      have hperc : percRows icd "Distant" g0 ≠ [] :=
        percRows_ne_nil (stackCats_ne_nil (fun x hx => (hwf x (hsub x hx)).1) hgne)
      refine ⟨?_, ?_, ?_⟩
      · intro hane
        rw [if_neg (by simpa using hane)] at hr
        exact hr
      · intro hae
        rw [if_pos (by simp [hae])] at hr
        rw [if_neg (by simpa using hperc)] at hr
        exact hr
      · intro hcon
        subst hcon
        by_cases hae : (agreedCats g0).isEmpty
        · rw [if_pos hae, if_neg (by simpa using hperc)] at hr
          cases hr
        · rw [if_neg hae] at hr
          cases hr

/-- C5 witness: query `E1165` with half-siblings `E1170 → W`, `E1172 → W` and
cousin `E1199 → V` in the table: only the Half-Siblings group is used and the
code resolves automatically to `W`; the cousin's category never enters. -/
theorem claim_C5_witness :
    distResolve [⟨"E1170", "W", ["W"]⟩, ⟨"E1172", "W", ["W"]⟩, ⟨"E1199", "V", ["V"]⟩]
        "E1165" =
      .ok (.auto ⟨"E1165", "Half-Siblings", ["W"], ["E1170", "E1172"]⟩) ∧
    firstNonemptyDist "E1165"
        [⟨"E1170", "W", ["W"]⟩, ⟨"E1172", "W", ["W"]⟩, ⟨"E1199", "V", ["V"]⟩] =
      some ("Half-Siblings", [⟨"E1170", "W", ["W"]⟩, ⟨"E1172", "W", ["W"]⟩]) ∧
    (CodeRes.auto ⟨"E1165", "Half-Siblings", ["W"], ["E1170", "E1172"]⟩ =
      .auto ⟨"E1165", "Half-Siblings",
        agreedCats [⟨"E1170", "W", ["W"]⟩, ⟨"E1172", "W", ["W"]⟩],
        [⟨"E1170", "W", ["W"]⟩, ⟨"E1172", "W", ["W"]⟩].map Row.icd⟩) :=
  ⟨rfl, rfl,
    ((@claim_C5_distant_single_kind
        [⟨"E1170", "W", ["W"]⟩, ⟨"E1172", "W", ["W"]⟩, ⟨"E1199", "V", ["V"]⟩]
        "E1165"
        (.auto ⟨"E1165", "Half-Siblings", ["W"], ["E1170", "E1172"]⟩)
        (by decide) rfl).2 _ _ rfl).1 (by decide)⟩

theorem relationGroup_close {icd k : String} {ccsr : List Row}
    (hk : k ∈ closeKinds) :
    relationGroup ccsr icd k = groupFor (get_closely_related icd ccsr) k := by
  rw [relationGroup, if_pos hk]

theorem relationGroup_of_firstNonemptyDist {icd k : String} {ccsr : List Row}
    {g : List Row} (h : firstNonemptyDist icd ccsr = some (k, g)) :
    relationGroup ccsr icd k = g := by
  rw [firstNonemptyDist] at h
  split at h
  · cases h
  · rename_i rel hok
    obtain ⟨hk, hgeq, -⟩ := findSome_group h
    have hknot : k ∉ closeKinds := by
      simp only [distKinds] at hk
      rcases List.mem_cons.mp hk with rfl | hk
      · decide
      · rcases List.mem_cons.mp hk with rfl | hk
        · decide
        · rcases List.mem_cons.mp hk with rfl | hk
          · decide
          · cases hk
    rw [relationGroup, if_neg hknot, hok]
    exact hgeq.symm

theorem groupFor_close_subset {icd : String} {ccsr : List Row} {k : String}
    {row : Row} (h : row ∈ groupFor (get_closely_related icd ccsr) k) :
    row ∈ ccsr := by
  obtain ⟨p, hp, hsnd⟩ := List.mem_map.mp (groupFor_subset_snd h)
  rw [← hsnd]
  exact snd_mem_closely hp

/-- C2: for every code resolved as Automatic, the reported category set equals
exactly the set of categories occurring in every member of the deciding
relation group: each reported category is present in every group member's
category set (soundness), and every category present in all members is
reported (maximality). -/
theorem claim_C2_full_agreement {us : List String} {ccsr : List Row}
    {a : List AutoRow} {se : List SemiRow} {f : List String}
    (hwf : WellFormedTable ccsr) (h : get_predicted us ccsr = .ok (a, se, f))
    {r : AutoRow} (hr : r ∈ a) :
    relationGroup ccsr r.queried_icd r.deciding_relationship ≠ [] ∧
    r.related_codes =
      (relationGroup ccsr r.queried_icd r.deciding_relationship).map Row.icd ∧
    ∀ c, c ∈ r.ccsr ↔
      ∀ row ∈ relationGroup ccsr r.queried_icd r.deciding_relationship,
        c ∈ row.cats := by
  obtain ⟨icd, hicd, hres⟩ := (mem_automatic h).mp hr
  rcases resolveCode_cases hres with ⟨hc, -, -⟩ | ⟨-, hd⟩
  · obtain ⟨k, hk, hgne, hane, hreq⟩ := closeResolve_auto hc
    subst hreq
    dsimp only
    rw [relationGroup_close hk]
    refine ⟨hgne, rfl, ?_⟩
    intro c
    rw [← mem_agreedCats
      (fun row hrow => (hwf row (groupFor_close_subset hrow)).2.1) hgne]
  · obtain ⟨k, g, hfind, hgne, hane, hreq⟩ := distResolve_auto hd
    subst hreq
    dsimp only
    rw [relationGroup_of_firstNonemptyDist hfind]
    refine ⟨hgne, rfl, ?_⟩
    intro c
    rw [← mem_agreedCats
      (fun row hrow => (hwf row (firstNonemptyDist_subset hfind row hrow)).2.1)
      hgne]

/-- C2 witness: query `A0101` with children `A01011 → X`, `A01012 → X`;
the automatic row reports exactly `{X}`, the agreed set of the Children
group. -/
theorem claim_C2_witness :
    relationGroup [⟨"A01011", "X", ["X"]⟩, ⟨"A01012", "X", ["X"]⟩] "A0101"
      "Children" ≠ [] ∧
    (["A01011", "A01012"] : List String) =
      (relationGroup [⟨"A01011", "X", ["X"]⟩, ⟨"A01012", "X", ["X"]⟩] "A0101"
        "Children").map Row.icd ∧
    ∀ c, c ∈ (["X"] : List String) ↔
      ∀ row ∈ relationGroup [⟨"A01011", "X", ["X"]⟩, ⟨"A01012", "X", ["X"]⟩]
        "A0101" "Children", c ∈ row.cats :=
  @claim_C2_full_agreement ["A0101"] [⟨"A01011", "X", ["X"]⟩, ⟨"A01012", "X", ["X"]⟩]
    [⟨"A0101", "Children", ["X"], ["A01011", "A01012"]⟩] [] []
    (by decide) rfl ⟨"A0101", "Children", ["X"], ["A01011", "A01012"]⟩
    (by decide)

/-! ## Locating one code's semiautomatic rows in the output -/

theorem semisOf_cons (s : String) (c : CodeRes) (l : List (String × CodeRes)) :
    semisOf ((s, c) :: l) =
      (match c with | .semi rs => rs | _ => []) ++ semisOf l := by
  cases c <;> simp [semisOf]

theorem filter_semisOf_eq {icd : String} :
    ∀ {l : List (String × CodeRes)} {rs0 : List SemiRow},
      (l.map Prod.fst).Nodup →
      (∀ p ∈ l, ∀ rs, p.2 = CodeRes.semi rs → ∀ x ∈ rs, x.queried_icd = p.1) →
      (icd, CodeRes.semi rs0) ∈ l →
      (semisOf l).filter (fun x => x.queried_icd == icd) = rs0 := by
  intro l
  induction l with
  | nil => intro rs0 _ _ hm; cases hm
  | cons p l ih =>
    intro rs0 hk hq hm
    obtain ⟨s, c⟩ := p
    rw [semisOf_cons, List.filter_append]
    rw [List.map_cons, List.nodup_cons] at hk
    rcases List.mem_cons.mp hm with heq | hm'
    · injection heq with h1 h2
      subst h1
      subst h2
      have hhead : rs0.filter (fun x => x.queried_icd == icd) = rs0 := by
        apply List.filter_eq_self.mpr
        intro x hx
        have := hq (icd, CodeRes.semi rs0) (List.mem_cons_self _ _) rs0 rfl x hx
        simp [this]
      have htail : (semisOf l).filter (fun x => x.queried_icd == icd) = [] := by
        apply List.filter_eq_nil_iff.mpr
        intro x hx
        obtain ⟨icd', rs', hp', hx'⟩ := mem_semisOf.mp hx
        have hqx := hq (icd', CodeRes.semi rs') (List.mem_cons_of_mem _ hp')
          rs' rfl x hx'
        have : icd' ≠ icd := by
          intro hcon
          subst hcon
          exact hk.1 (List.mem_map.mpr ⟨(icd', CodeRes.semi rs'), hp', rfl⟩)
        simp [hqx, this]
      rw [hhead, htail, List.append_nil]
    · have hicdm : icd ∈ l.map Prod.fst :=
        List.mem_map.mpr ⟨(icd, CodeRes.semi rs0), hm', rfl⟩
      have hsne : s ≠ icd := fun hcon => hk.1 (hcon ▸ hicdm)
      have htail := ih hk.2 (fun p hp => hq p (List.mem_cons_of_mem _ hp)) hm'
      cases c with
      | semi rs =>
        have hhead : rs.filter (fun x => x.queried_icd == icd) = [] := by
          apply List.filter_eq_nil_iff.mpr
          intro x hx
          have hqx := hq (s, CodeRes.semi rs) (List.mem_cons_self _ _) rs rfl x hx
          dsimp only at hqx
          simp only [beq_iff_eq, hqx]
          exact hsne
        dsimp only
        rw [hhead, List.nil_append]
        exact htail
      | auto r =>
        dsimp only
        rw [List.filter_nil, List.nil_append]
        exact htail
      | fail =>
        dsimp only
        rw [List.filter_nil, List.nil_append]
        exact htail
      | dropped =>
        dsimp only
        rw [List.filter_nil, List.nil_append]
        exact htail

theorem filter_semisOf_nil {icd : String} {l : List (String × CodeRes)}
    (hn : ∀ p ∈ l, p.1 ≠ icd)
    (hq : ∀ p ∈ l, ∀ rs, p.2 = CodeRes.semi rs → ∀ x ∈ rs, x.queried_icd = p.1) :
    (semisOf l).filter (fun x => x.queried_icd == icd) = [] := by
  apply List.filter_eq_nil_iff.mpr
  intro x hx
  obtain ⟨icd', rs', hp', hx'⟩ := mem_semisOf.mp hx
  have hqx := hq (icd', CodeRes.semi rs') hp' rs' rfl x hx'
  have hne := hn (icd', CodeRes.semi rs') hp'
  dsimp only at hqx hne
  rw [hqx]
  simp [hne]

theorem closeLoop_fail_eq {icd : String} {rel : List (String × Row)} :
    ∀ {ks : List String} {temp : List Row}, closeLoop icd rel ks temp = .fail →
      (temp ++ (ks.map (groupFor rel)).flatten) ≠ [] ∧
      percRows icd "Close" (temp ++ (ks.map (groupFor rel)).flatten) = [] := by
  intro ks
  induction ks with
  | nil =>
    intro temp h
    rw [closeLoop] at h
    dsimp only at h
    split at h
    · cases h
    · rename_i hte
      split at h
      · rename_i hperc
        refine ⟨by simpa using hte, ?_⟩
        simpa using List.isEmpty_iff.mp hperc
      · cases h
  | cons k ks ih =>
    intro temp h
    rw [closeLoop] at h
    dsimp only at h
    split at h
    · rename_i hge
      have hgnil : groupFor rel k = [] := List.isEmpty_iff.mp hge
      obtain ⟨h1, h2⟩ := ih h
      constructor
      · simpa [hgnil] using h1
      · have : temp ++ (((k :: ks).map (groupFor rel)).flatten) =
            temp ++ ((ks.map (groupFor rel)).flatten) := by
          simp [hgnil]
        rw [this]
        exact h2
    · split at h
      · obtain ⟨h1, h2⟩ := ih h
        constructor
        · simpa using h1
        · have : temp ++ (((k :: ks).map (groupFor rel)).flatten) =
              (temp ++ groupFor rel k) ++ ((ks.map (groupFor rel)).flatten) := by
            simp
          rw [this]
          exact h2
      · cases h

/-- C4: for every queried code with at least one close relation group but no
close kind producing full agreement, the code is emitted as SemiAutomatic with
relationship `Close`, its rows are ordered by descending agreement percentage
with ties ordered by ascending category label, and the distant tier is never
consulted: the code appears in neither `automatic` nor `failed`, and all its
`semiautomatic` rows carry the close tier's label. -/
theorem claim_C4_close_semiautomatic {us : List String} {ccsr : List Row}
    {a : List AutoRow} {se : List SemiRow} {f : List String}
    (hwf : WellFormedTable ccsr) (hnd : us.Nodup)
    (h : get_predicted us ccsr = .ok (a, se, f)) {icd : String}
    (hicd : icd ∈ us) (hsome : get_closely_related icd ccsr ≠ [])
    (hnoagree : firstAgreedClose icd ccsr = none) :
    (∃ x ∈ se, x.queried_icd = icd) ∧
    (∀ x ∈ se, x.queried_icd = icd → x.relationship = "Close") ∧
    (∀ r ∈ a, r.queried_icd ≠ icd) ∧
    icd ∉ f ∧
    (se.filter (fun (x : SemiRow) => x.queried_icd == icd)).Pairwise
      (fun x y => y.prct_fam_agree < x.prct_fam_agree ∨
        (x.prct_fam_agree = y.prct_fam_agree ∧ strLt x.ccsr_1 y.ccsr_1)) := by
  rw [firstAgreedClose] at hnoagree
  have hnoag : ∀ k ∈ closeKinds,
      groupFor (get_closely_related icd ccsr) k = [] ∨
      agreedCats (groupFor (get_closely_related icd ccsr) k) = [] := by
    intro k hk
    have hkn := List.findSome?_eq_none_iff.mp hnoagree k hk
    dsimp only at hkn
    by_cases hge : (groupFor (get_closely_related icd ccsr) k).isEmpty
    · exact Or.inl (List.isEmpty_iff.mp hge)
    · by_cases hae : (agreedCats (groupFor (get_closely_related icd ccsr) k)).isEmpty
      · exact Or.inr (List.isEmpty_iff.mp hae)
      · rw [if_pos (by simp [Bool.eq_false_iff.mpr hge, Bool.eq_false_iff.mpr hae])] at hkn
        cases hkn
  have hpoolsub : ∀ x ∈ (get_closely_related icd ccsr).map Prod.snd, x ∈ ccsr := by
    intro x hx
    obtain ⟨p, hp, hsnd⟩ := List.mem_map.mp hx
    rw [← hsnd]
    exact snd_mem_closely hp
  have hpoolne : (get_closely_related icd ccsr).map Prod.snd ≠ [] := by
    intro hcon
    exact hsome (List.map_eq_nil_iff.mp hcon)
  have hpercne : percRows icd "Close" ((get_closely_related icd ccsr).map Prod.snd) ≠ [] :=
    percRows_ne_nil (stackCats_ne_nil (fun x hx => (hwf x (hpoolsub x hx)).1) hpoolne)
  cases hc : closeResolve ccsr icd with
  | auto r =>
    obtain ⟨k, hk, hgne, hane, -⟩ := closeResolve_auto hc
    rcases hnoag k hk with hcon | hcon
    · exact absurd hcon hgne
    · exact absurd hcon hane
  | fail =>
    exfalso
    rw [closeResolve] at hc
    split at hc
    · rename_i hre
      exact hsome (List.isEmpty_iff.mp hre)
    · obtain ⟨-, hperc⟩ := closeLoop_fail_eq hc
      rw [List.nil_append] at hperc
      have : percRows icd "Close" ((get_closely_related icd ccsr).map Prod.snd) = [] := by
        rw [← flatten_groups_close]
        exact hperc
      exact hpercne this
  | dropped => exact absurd hc (closeResolve_ne_dropped ccsr icd)
  | semi rs =>
    obtain ⟨-, hrs, hrsne, -⟩ := closeResolve_semi hc
    have hres : resolveCode ccsr icd = .ok (.semi rs) := resolveCode_close_semi hc
    obtain ⟨dl, hdl, hout⟩ := get_predicted_ok h
    injection hout with ha h2
    injection h2 with hse hf
    refine ⟨?_, ?_, ?_, ?_, ?_⟩
    · obtain ⟨x, hx⟩ := List.exists_mem_of_ne_nil rs hrsne
      exact ⟨x, (mem_semiautomatic h).mpr ⟨icd, hicd, rs, hres, hx⟩,
        closeResolve_semi_queried hc x hx⟩
    · intro x hx hq
      obtain ⟨icd', hicd', rs', hres', hx'⟩ := (mem_semiautomatic h).mp hx
      have heq : icd' = icd := by
        have h1 := resolveCode_semi_queried hres' x hx'
        rw [hq] at h1
        exact h1.symm
      subst heq
      rw [hres] at hres'
      injection hres' with h'
      injection h' with h''
      subst h''
      exact closeResolve_semi_relationship hc x hx'
    · rintro r hr rfl
      obtain ⟨icd', hicd', hres'⟩ := (mem_automatic h).mp hr
      have heq : icd' = r.queried_icd := (resolveCode_auto_queried hres').symm
      subst heq
      rw [hres] at hres'
      injection hres' with h'
      cases h'
    · intro hff
      obtain ⟨-, hres'⟩ := (mem_failed h).mp hff
      rw [hres] at hres'
      injection hres' with h'
      cases h'
    · have hsorted : se.Pairwise semiLE := by
        subst hse
        exact List.sorted_insertionSort semiLE _
      have hpair1 : (se.filter (fun (x : SemiRow) => x.queried_icd == icd)).Pairwise semiLE :=
        hsorted.sublist (List.filter_sublist se)
      have hperm : List.Perm
          (se.filter (fun (x : SemiRow) => x.queried_icd == icd)) rs := by
        have hperm0 : List.Perm se (semisOf (closePhase ccsr us) ++ semisOf dl) := by
          subst hse
          exact List.perm_insertionSort semiLE _
        have hclose : (semisOf (closePhase ccsr us)).filter
            (fun (x : SemiRow) => x.queried_icd == icd) = rs := by
          apply filter_semisOf_eq
          · rw [closePhase_map_fst]
            exact ((List.perm_insertionSort strLe us).nodup_iff).mpr hnd
          · exact closePhase_semi_queried
          · exact mem_closePhase.mpr ⟨hicd, hc.symm⟩
        have hdist : (semisOf dl).filter (fun (x : SemiRow) => x.queried_icd == icd) = [] := by
          apply filter_semisOf_nil
          · rintro ⟨s, c⟩ hp hcon
            dsimp only at hcon
            subst hcon
            have hkey : s ∈ dl.map Prod.fst :=
              List.mem_map.mpr ⟨(s, c), hp, rfl⟩
            rw [distPhase_ok_keys hdl] at hkey
            obtain ⟨-, hcf⟩ := mem_closePhase.mp
              (mem_failsOf.mp (mem_sortStr.mp hkey))
            rw [hc] at hcf
            cases hcf
          · exact distPhase_semi_queried hdl
        have hstep := hperm0.filter (fun (x : SemiRow) => x.queried_icd == icd)
        rw [List.filter_append, hclose, hdist, List.append_nil] at hstep
        exact hstep
      have hcne : (se.filter (fun (x : SemiRow) => x.queried_icd == icd)).Pairwise
          (fun x y => x.ccsr_1 ≠ y.ccsr_1) := by
        have hnodup : ((se.filter (fun (x : SemiRow) => x.queried_icd == icd)).map
            SemiRow.ccsr_1).Nodup := by
          refine ((hperm.map SemiRow.ccsr_1).nodup_iff).mpr ?_
          rw [hrs, percRows_map_ccsr1]
          exact List.nodup_dedup _
        exact List.pairwise_map.mp hnodup
      refine List.Pairwise.imp_of_mem ?_ (hpair1.and hcne)
      intro x y hx hy hxy
      have hqx : x.queried_icd = icd := by
        have := List.mem_filter.mp hx
        exact beq_iff_eq.mp this.2
      have hqy : y.queried_icd = icd := by
        have := List.mem_filter.mp hy
        exact beq_iff_eq.mp this.2
      obtain ⟨hle, hne⟩ := hxy
      rcases hle with hlt | ⟨-, hinner⟩
      · rw [hqx, hqy] at hlt
        exact absurd hlt (strLt_irrefl icd)
      · rcases hinner with hplt | ⟨hpeq, hcle⟩
        · exact Or.inl hplt
        · exact Or.inr ⟨hpeq, strLt_of_le_ne hcle hne⟩

/-- C4 witness: query `B20` with siblings `B21 → Y`, `B22 → Z` (no agreement,
no children/parents): two `Close` rows at 50.00% each, ordered `Y` before `Z`,
and the code is in neither `automatic` nor `failed`. -/
theorem claim_C4_witness :
    (∃ x ∈ [(⟨"B20", "Y", 5000, "Close"⟩ : SemiRow), ⟨"B20", "Z", 5000, "Close"⟩],
      x.queried_icd = "B20") ∧
    (∀ x ∈ [(⟨"B20", "Y", 5000, "Close"⟩ : SemiRow), ⟨"B20", "Z", 5000, "Close"⟩],
      x.queried_icd = "B20" → x.relationship = "Close") ∧
    (∀ r ∈ ([] : List AutoRow), r.queried_icd ≠ "B20") ∧
    "B20" ∉ ([] : List String) ∧
    (([(⟨"B20", "Y", 5000, "Close"⟩ : SemiRow), ⟨"B20", "Z", 5000, "Close"⟩].filter
        (fun x => x.queried_icd == "B20")).Pairwise
      (fun x y => y.prct_fam_agree < x.prct_fam_agree ∨
        (x.prct_fam_agree = y.prct_fam_agree ∧ strLt x.ccsr_1 y.ccsr_1))) :=
  @claim_C4_close_semiautomatic ["B20"] [⟨"B21", "Y", ["Y"]⟩, ⟨"B22", "Z", ["Z"]⟩]
    [] [⟨"B20", "Y", 5000, "Close"⟩, ⟨"B20", "Z", 5000, "Close"⟩] []
    (by decide) (by decide) rfl "B20" (by decide) (by decide) rfl

/-! ## The rounding bridge: `pctHundredths` computes `round2` exactly -/

theorem floor_cast_div (n s : ℕ) :
    ⌊(n : ℚ) / (s : ℚ)⌋ = ((n / s : ℕ) : ℤ) := by
  rw [Rat.floor_natCast_div_natCast]
  exact (Int.ofNat_div n s).symm

theorem fract_cast_div (n s : ℕ) (hs : s ≠ 0) :
    Int.fract ((n : ℚ) / (s : ℚ)) = ((n % s : ℕ) : ℚ) / (s : ℚ) := by
  have hs' : (s : ℚ) ≠ 0 := Nat.cast_ne_zero.mpr hs
  rw [Int.fract, floor_cast_div]
  have hmod : s * (n / s) + n % s = n := Nat.div_add_mod n s
  have hmodq : (s : ℚ) * ((n / s : ℕ) : ℚ) + ((n % s : ℕ) : ℚ) = (n : ℚ) := by
    exact_mod_cast congrArg (fun x : ℕ => (x : ℚ)) hmod
  have hcast : ((((n / s : ℕ) : ℤ)) : ℚ) = ((n / s : ℕ) : ℚ) := by norm_cast
  rw [hcast, eq_div_iff hs', sub_mul, div_mul_cancel₀ _ hs']
  linear_combination -hmodq

theorem pctHundredths_cast (c s : ℕ) (hs : s ≠ 0) :
    (pctHundredths c s : ℚ) = 100 * round2 (100 * (c : ℚ) / (s : ℚ)) := by
  have hs' : (s : ℚ) ≠ 0 := Nat.cast_ne_zero.mpr hs
  have hsp : (0 : ℚ) < (s : ℚ) := by exact_mod_cast Nat.pos_of_ne_zero hs
  have harg : (100 * (c : ℚ) / (s : ℚ)) * 100 = ((10000 * c : ℕ) : ℚ) / (s : ℚ) := by
    push_cast
    field_simp
    ring
  rw [round2, harg]
  rw [show (100 : ℚ) * ((roundHalfEven (((10000 * c : ℕ) : ℚ) / (s : ℚ)) : ℚ) / 100) =
    (roundHalfEven (((10000 * c : ℕ) : ℚ) / (s : ℚ)) : ℚ) from by ring]
  have hfl := floor_cast_div (10000 * c) s
  have hfr := fract_cast_div (10000 * c) s hs
  rw [roundHalfEven, pctHundredths]
  by_cases h1 : 2 * (10000 * c % s) < s
  · rw [if_pos h1]
    have hlt : Int.fract (((10000 * c : ℕ) : ℚ) / (s : ℚ)) < 1 / 2 := by
      rw [hfr, div_lt_iff hsp]
      have h1q : ((2 * (10000 * c % s) : ℕ) : ℚ) < (s : ℚ) := by exact_mod_cast h1
      push_cast at h1q
      linarith
    rw [if_neg (by intro hcon; rw [hcon] at hlt; linarith), round_eq]
    have hsplit : ⌊((10000 * c : ℕ) : ℚ) / (s : ℚ) + 1 / 2⌋ =
        ⌊((10000 * c : ℕ) : ℚ) / (s : ℚ)⌋ := by
      conv_lhs => rw [← Int.floor_add_fract (((10000 * c : ℕ) : ℚ) / (s : ℚ)),
        add_assoc]
      rw [Int.floor_int_add]
      have hz : ⌊Int.fract (((10000 * c : ℕ) : ℚ) / (s : ℚ)) + 1 / 2⌋ = 0 := by
        apply Int.floor_eq_zero_iff.mpr
        constructor
        · have := Int.fract_nonneg (((10000 * c : ℕ) : ℚ) / (s : ℚ))
          linarith
        · linarith
      rw [hz, add_zero]
    rw [hsplit, hfl]
    norm_cast
  · rw [if_neg h1]
    by_cases h2 : s < 2 * (10000 * c % s)
    · rw [if_pos h2]
      have hgt : 1 / 2 < Int.fract (((10000 * c : ℕ) : ℚ) / (s : ℚ)) := by
        rw [hfr, lt_div_iff hsp]
        have h2q : (s : ℚ) < ((2 * (10000 * c % s) : ℕ) : ℚ) := by exact_mod_cast h2
        push_cast at h2q
        linarith
      rw [if_neg (by intro hcon; rw [hcon] at hgt; linarith), round_eq]
      have hsplit : ⌊((10000 * c : ℕ) : ℚ) / (s : ℚ) + 1 / 2⌋ =
          ⌊((10000 * c : ℕ) : ℚ) / (s : ℚ)⌋ + 1 := by
        conv_lhs => rw [← Int.floor_add_fract (((10000 * c : ℕ) : ℚ) / (s : ℚ)),
          add_assoc]
        rw [Int.floor_int_add]
        have hone : ⌊Int.fract (((10000 * c : ℕ) : ℚ) / (s : ℚ)) + 1 / 2⌋ = 1 := by
          apply Int.floor_eq_iff.mpr
          constructor
          · rw [Int.cast_one]
            linarith
          · have := Int.fract_lt_one (((10000 * c : ℕ) : ℚ) / (s : ℚ))
            rw [Int.cast_one]
            linarith
        rw [hone]
      rw [hsplit, hfl]
      norm_cast
    · rw [if_neg h2]
      have hseq : 2 * (10000 * c % s) = s :=
        Nat.le_antisymm (Nat.le_of_not_lt h2) (Nat.le_of_not_lt h1)
      have hmne : (10000 * c % s) ≠ 0 := by
        intro hcon
        rw [hcon] at hseq
        exact hs hseq.symm
      have hfr2 : Int.fract (((10000 * c : ℕ) : ℚ) / (s : ℚ)) = 1 / 2 := by
        rw [hfr]
        have h2m : ((s : ℕ) : ℚ) = 2 * ((10000 * c % s : ℕ) : ℚ) := by
          exact_mod_cast hseq.symm
        rw [h2m, div_eq_div_iff
          (mul_ne_zero two_ne_zero (Nat.cast_ne_zero.mpr hmne)) two_ne_zero]
        ring
      rw [if_pos hfr2, hfl]
      by_cases hev : 10000 * c / s % 2 = 0
      · have hdvd : (2 : ℤ) ∣ ((10000 * c / s : ℕ) : ℤ) := by
          exact_mod_cast Nat.dvd_of_mod_eq_zero hev
        rw [if_pos hev, if_pos hdvd]
        norm_cast
      · have hndvd : ¬ (2 : ℤ) ∣ ((10000 * c / s : ℕ) : ℤ) := by
          intro hcon
          have hnat : (2 : ℕ) ∣ (10000 * c / s) := by exact_mod_cast hcon
          obtain ⟨k, hk⟩ := hnat
          omega
        rw [if_neg hev, if_neg hndvd]
        norm_cast

theorem percRow_field_spec {icd tag : String} {pool : List Row} {x : SemiRow}
    (hx : x ∈ percRows icd tag pool)
    (hn : ∀ r ∈ pool, r.cats.Nodup) (hne : pool ≠ []) :
    x.prct_fam_agree =
      pctHundredths ((pool.filter (fun (r : Row) => x.ccsr_1 ∈ r.cats)).length)
        pool.length ∧
    (x.prct_fam_agree : ℚ) =
      100 * round2 (100 *
        ((pool.filter (fun (r : Row) => x.ccsr_1 ∈ r.cats)).length : ℚ) /
        (pool.length : ℚ)) := by
  obtain ⟨c, -, hxeq⟩ := mem_percRows.mp hx
  subst hxeq
  have hcnt : (stackCats pool).count c =
      (pool.filter (fun (r : Row) => c ∈ r.cats)).length := count_stackCats hn
  have hlen : pool.length ≠ 0 := fun hcon => hne (List.length_eq_zero.mp hcon)
  constructor
  · dsimp only
    rw [hcnt]
  · dsimp only
    rw [hcnt, pctHundredths_cast _ _ hlen]

/-- **C6.** Every semiautomatic row's `prct_fam_agree` (stored here in
hundredths of a percent) equals `100 * count / groupSize` rounded to two
decimal places, where `count` is the number of members of the deciding group
whose category set contains the row's candidate category, and the group is
the union pool over all close kinds when the row's relationship is `"Close"`
and the first non-empty distant kind's group when it is `"Distant"`. -/
theorem claim_C6_percentage {us : List String} {ccsr : List Row}
    {a : List AutoRow} {se : List SemiRow} {f : List String}
    (hwf : WellFormedTable ccsr)
    (h : get_predicted us ccsr = .ok (a, se, f))
    {x : SemiRow} (hx : x ∈ se) :
    ∃ pool : List Row, pool ≠ [] ∧ (∀ r ∈ pool, r ∈ ccsr) ∧
      ((x.relationship = "Close" ∧
          pool = (get_closely_related x.queried_icd ccsr).map Prod.snd) ∨
        (x.relationship = "Distant" ∧
          ∃ k, firstNonemptyDist x.queried_icd ccsr = some (k, pool))) ∧
      x.prct_fam_agree =
        pctHundredths ((pool.filter (fun (r : Row) => x.ccsr_1 ∈ r.cats)).length)
          pool.length ∧
      (x.prct_fam_agree : ℚ) =
        100 * round2 (100 *
          ((pool.filter (fun (r : Row) => x.ccsr_1 ∈ r.cats)).length : ℚ) /
          (pool.length : ℚ)) := by
  obtain ⟨icd, hicd, rs, hres, hxrs⟩ := (mem_semiautomatic h).mp hx
  rcases resolveCode_cases hres with ⟨hc, -, -⟩ | ⟨hcf, hd⟩
  · obtain ⟨hne, hrs, -, -⟩ := closeResolve_semi hc
    rw [hrs] at hxrs
    have hq : x.queried_icd = icd := percRows_queried hxrs
    have hrel : x.relationship = "Close" := percRows_relationship hxrs
    have hsub : ∀ r ∈ (get_closely_related icd ccsr).map Prod.snd, r ∈ ccsr := by
      intro r hr
      obtain ⟨p, hp, hpr⟩ := List.mem_map.mp hr
      rw [← hpr]
      exact snd_mem_closely hp
    have hpne : (get_closely_related icd ccsr).map Prod.snd ≠ [] := by
      intro hcon
      exact hne (List.map_eq_nil_iff.mp hcon)
    have hn : ∀ r ∈ (get_closely_related icd ccsr).map Prod.snd, r.cats.Nodup :=
      fun r hr => (hwf r (hsub r hr)).2.1
    obtain ⟨hp1, hp2⟩ := percRow_field_spec hxrs hn hpne
    exact ⟨(get_closely_related icd ccsr).map Prod.snd, hpne, hsub,
      Or.inl ⟨hrel, by rw [hq]⟩, hp1, hp2⟩
  · obtain ⟨k, g, hfind, hgne, -, hrs, -⟩ := distResolve_semi hd
    rw [hrs] at hxrs
    have hq : x.queried_icd = icd := percRows_queried hxrs
    have hrel : x.relationship = "Distant" := percRows_relationship hxrs
    have hsub : ∀ r ∈ g, r ∈ ccsr := firstNonemptyDist_subset hfind
    have hn : ∀ r ∈ g, r.cats.Nodup := fun r hr => (hwf r (hsub r hr)).2.1
    obtain ⟨hp1, hp2⟩ := percRow_field_spec hxrs hn hgne
    exact ⟨g, hgne, hsub, Or.inr ⟨hrel, k, by rw [hq]; exact hfind⟩, hp1, hp2⟩

/-- Witness for C6: the "B20" scenario of spec §8, checked on its first
semiautomatic row (`Y`, 50.00%). -/
theorem claim_C6_witness :
    WellFormedTable [⟨"B21", "Y", ["Y"]⟩, ⟨"B22", "Z", ["Z"]⟩] ∧
    ∃ pool : List Row, pool ≠ [] ∧
      (∀ r ∈ pool, r ∈ [(⟨"B21", "Y", ["Y"]⟩ : Row), ⟨"B22", "Z", ["Z"]⟩]) ∧
      (((⟨"B20", "Y", 5000, "Close"⟩ : SemiRow).relationship = "Close" ∧
          pool = (get_closely_related
            (⟨"B20", "Y", 5000, "Close"⟩ : SemiRow).queried_icd
            [⟨"B21", "Y", ["Y"]⟩, ⟨"B22", "Z", ["Z"]⟩]).map Prod.snd) ∨
        ((⟨"B20", "Y", 5000, "Close"⟩ : SemiRow).relationship = "Distant" ∧
          ∃ k, firstNonemptyDist
            (⟨"B20", "Y", 5000, "Close"⟩ : SemiRow).queried_icd
            [⟨"B21", "Y", ["Y"]⟩, ⟨"B22", "Z", ["Z"]⟩] = some (k, pool))) ∧
      (⟨"B20", "Y", 5000, "Close"⟩ : SemiRow).prct_fam_agree =
        pctHundredths ((pool.filter (fun (r : Row) =>
          (⟨"B20", "Y", 5000, "Close"⟩ : SemiRow).ccsr_1 ∈ r.cats)).length)
          pool.length ∧
      (((⟨"B20", "Y", 5000, "Close"⟩ : SemiRow).prct_fam_agree : ℕ) : ℚ) =
        100 * round2 (100 * ((pool.filter (fun (r : Row) =>
          (⟨"B20", "Y", 5000, "Close"⟩ : SemiRow).ccsr_1 ∈ r.cats)).length : ℚ) /
          (pool.length : ℚ)) :=
  ⟨by decide,
   @claim_C6_percentage ["B20"] [⟨"B21", "Y", ["Y"]⟩, ⟨"B22", "Z", ["Z"]⟩]
     [] [⟨"B20", "Y", 5000, "Close"⟩, ⟨"B20", "Z", 5000, "Close"⟩] []
     (by decide) rfl ⟨"B20", "Y", 5000, "Close"⟩ (by decide)⟩

/-! ## The default-category assigner: correctness of the frequency argmax -/

theorem dropDupBy_subset {α β : Type} [DecidableEq β] (f : α → β) :
    ∀ (seen : List β) (l : List α) (x : α), x ∈ dropDupBy f seen l → x ∈ l := by
  intro seen l
  induction l generalizing seen with
  | nil => intro x hx; cases hx
  | cons y ys ih =>
    intro x hx
    rw [dropDupBy] at hx
    split at hx
    · exact List.mem_cons_of_mem y (ih _ x hx)
    · rcases List.mem_cons.mp hx with rfl | hx2
      · exact List.mem_cons_self x ys
      · exact List.mem_cons_of_mem y (ih _ x hx2)

theorem mem_dropDupBy_id {c : String} :
    ∀ {l : List String} {seen : List String}, c ∈ l → c ∉ seen →
      c ∈ dropDupBy id seen l := by
  intro l
  induction l with
  | nil => intro seen hc; cases hc
  | cons x xs ih =>
    intro seen hc hs
    rw [dropDupBy]
    rcases List.mem_cons.mp hc with rfl | hc2
    · rw [if_neg (by simpa using hs)]
      exact List.mem_cons_self c _
    · by_cases hx : (id x) ∈ seen
      · rw [if_pos hx]
        exact ih hc2 hs
      · rw [if_neg hx]
        by_cases hcx : c = x
        · subst hcx
          exact List.mem_cons_self c _
        · refine List.mem_cons_of_mem x (ih hc2 ?_)
          intro hcon
          rcases List.mem_cons.mp hcon with heq | hseen
          · exact hcx (by simpa using heq)
          · exact hs hseen

theorem foldl_argmax (l : List String) :
    ∀ (ds : List String) (d : String),
      (ds.foldl (fun best c => if l.count best < l.count c then c else best) d)
        ∈ d :: ds ∧
      ∀ c ∈ d :: ds, l.count c ≤
        l.count (ds.foldl
          (fun best c => if l.count best < l.count c then c else best) d) := by
  intro ds
  induction ds with
  | nil =>
    intro d
    refine ⟨List.mem_cons_self d [], ?_⟩
    intro c hc
    rcases List.mem_cons.mp hc with rfl | h
    · exact Nat.le_refl _
    · cases h
  | cons c cs ih =>
    intro d
    rw [List.foldl_cons]
    obtain ⟨hmem, hbd⟩ := ih (if l.count d < l.count c then c else d)
    have hdstep : l.count d ≤ l.count (if l.count d < l.count c then c else d) := by
      split
      · rename_i hlt
        exact Nat.le_of_lt hlt
      · exact Nat.le_refl _
    have hcstep : l.count c ≤ l.count (if l.count d < l.count c then c else d) := by
      split
      · exact Nat.le_refl _
      · rename_i hge
        exact Nat.le_of_not_lt hge
    constructor
    · rcases List.mem_cons.mp hmem with heq | hmem2
      · rw [heq]
        split
        · exact List.mem_cons_of_mem d (List.mem_cons_self c cs)
        · exact List.mem_cons_self d (c :: cs)
      · exact List.mem_cons_of_mem d (List.mem_cons_of_mem c hmem2)
    · intro x hx
      have hstepb := hbd _ (List.mem_cons_self (if l.count d < l.count c then c else d) cs)
      rcases List.mem_cons.mp hx with rfl | hx2
      · exact Nat.le_trans hdstep hstepb
      · rcases List.mem_cons.mp hx2 with rfl | hx3
        · exact Nat.le_trans hcstep hstepb
        · exact hbd x (List.mem_cons_of_mem _ hx3)

theorem argmaxCount_spec {l : List String} (hne : l ≠ []) :
    ∃ d, argmaxCount l = some d ∧ d ∈ l ∧ ∀ c ∈ l, l.count c ≤ l.count d := by
  cases hd : dropDupBy id [] l with
  | nil =>
    exfalso
    rcases List.exists_mem_of_ne_nil l hne with ⟨c, hc⟩
    have : c ∈ dropDupBy id ([] : List String) l :=
      mem_dropDupBy_id hc (by intro h; cases h)
    rw [hd] at this
    cases this
  | cons d ds =>
    obtain ⟨hmem, hbd⟩ := foldl_argmax l ds d
    refine ⟨ds.foldl (fun best c => if l.count best < l.count c then c else best) d,
      ?_, ?_, ?_⟩
    · rw [argmaxCount, hd]
    · rw [← hd] at hmem
      exact dropDupBy_subset id [] l _ hmem
    · intro c hc
      have hcd : c ∈ d :: ds := by
        rw [← hd]
        exact mem_dropDupBy_id hc (by intro h; cases h)
      exact hbd c hcd

/-- **C7.** `add_default` decides an automatic row's default category by
precedence: a default-map hit on the sorted agreed tuple wins outright;
otherwise a sole agreed category becomes the default; otherwise the most
frequent default among the related codes' defaults lying in the agreed set,
and no default at all when that restriction is empty. -/
theorem claim_C7_default_precedence (official : List Row) (row : AutoRow) :
    (∀ d, lookupLast (get_default_map official) (sortStr row.ccsr) = some d →
        add_default_row official row = some d) ∧
    (lookupLast (get_default_map official) (sortStr row.ccsr) = none →
      (∀ c, row.ccsr = [c] → add_default_row official row = some c) ∧
      (2 ≤ row.ccsr.length →
        (sharedDefs official row = [] → add_default_row official row = none) ∧
        (sharedDefs official row ≠ [] →
          ∃ d, add_default_row official row = some d ∧
            d ∈ sharedDefs official row ∧
            ∀ c ∈ sharedDefs official row,
              (sharedDefs official row).count c ≤
                (sharedDefs official row).count d))) := by
  constructor
  · intro d hd
    rw [add_default_row, hd]
  · intro hnone
    constructor
    · intro c hc
      rw [add_default_row, hnone]
      dsimp only
      rw [hc]
      rfl
    · intro h2
      constructor
      · intro hse
        rw [add_default_row, hnone]
        dsimp only
        rw [if_neg (by omega), hse]
        rfl
      · intro hse
        obtain ⟨d, hag, hdm, hmax⟩ := argmaxCount_spec hse
        refine ⟨d, ?_, hdm, hmax⟩
        rw [add_default_row, hnone]
        dsimp only
        rw [if_neg (by omega), hag]

/-- Witness for C7: a two-category automatic row whose sorted tuple is not a
default-map key; the most frequent shared default (`"Y"`, twice against once
for `"X"`) is chosen. -/
theorem claim_C7_witness :
    lookupLast
      (get_default_map
        [⟨"R1", "X", ["X", "Z"]⟩, ⟨"R2", "Y", ["Y", "Z"]⟩, ⟨"R3", "Y", ["Y", "W"]⟩])
      (sortStr (AutoRow.ccsr ⟨"Q01", "Children", ["X", "Y"], ["R1", "R2", "R3"]⟩)) =
        none ∧
    2 ≤ (AutoRow.ccsr ⟨"Q01", "Children", ["X", "Y"], ["R1", "R2", "R3"]⟩).length ∧
    sharedDefs
      [⟨"R1", "X", ["X", "Z"]⟩, ⟨"R2", "Y", ["Y", "Z"]⟩, ⟨"R3", "Y", ["Y", "W"]⟩]
      ⟨"Q01", "Children", ["X", "Y"], ["R1", "R2", "R3"]⟩ ≠ [] ∧
    ∃ d, add_default_row
        [⟨"R1", "X", ["X", "Z"]⟩, ⟨"R2", "Y", ["Y", "Z"]⟩, ⟨"R3", "Y", ["Y", "W"]⟩]
        ⟨"Q01", "Children", ["X", "Y"], ["R1", "R2", "R3"]⟩ = some d ∧
      d ∈ sharedDefs
        [⟨"R1", "X", ["X", "Z"]⟩, ⟨"R2", "Y", ["Y", "Z"]⟩, ⟨"R3", "Y", ["Y", "W"]⟩]
        ⟨"Q01", "Children", ["X", "Y"], ["R1", "R2", "R3"]⟩ ∧
      ∀ c ∈ sharedDefs
        [⟨"R1", "X", ["X", "Z"]⟩, ⟨"R2", "Y", ["Y", "Z"]⟩, ⟨"R3", "Y", ["Y", "W"]⟩]
        ⟨"Q01", "Children", ["X", "Y"], ["R1", "R2", "R3"]⟩,
        (sharedDefs
          [⟨"R1", "X", ["X", "Z"]⟩, ⟨"R2", "Y", ["Y", "Z"]⟩, ⟨"R3", "Y", ["Y", "W"]⟩]
          ⟨"Q01", "Children", ["X", "Y"], ["R1", "R2", "R3"]⟩).count c ≤
        (sharedDefs
          [⟨"R1", "X", ["X", "Z"]⟩, ⟨"R2", "Y", ["Y", "Z"]⟩, ⟨"R3", "Y", ["Y", "W"]⟩]
          ⟨"Q01", "Children", ["X", "Y"], ["R1", "R2", "R3"]⟩).count d :=
  ⟨by decide, by decide, by decide,
    (((claim_C7_default_precedence
        [⟨"R1", "X", ["X", "Z"]⟩, ⟨"R2", "Y", ["Y", "Z"]⟩, ⟨"R3", "Y", ["Y", "W"]⟩]
        ⟨"Q01", "Children", ["X", "Y"], ["R1", "R2", "R3"]⟩).2
      (by decide)).2 (by decide)).2 (by decide)⟩

/-- **C8.** Refuted: the resolution is *not* exception-free.  For the query
code `"A01xx"` (length ≥ 5, last two characters not digits) against a table
containing the same-length, same-prefix, digit-ending entry `"A0111"`,
`get_halfsibs` reaches `int(icd[-2:])` (relation_finder.py:781) on the
non-numeric suffix `"xx"` and raises `ValueError` instead of returning a
result. -/
theorem claim_C8_halfsibs_raises :
    get_halfsibs "A01xx" [⟨"A0111", "X", ["X"]⟩] = .error () := rfl

/-- **C9 (amended).** The classifiers never return the queried code's own
reference row *provided the table has no entry for the queried code* — the
situation guaranteed by the pipeline, which sends only unmatched codes into
the relation search.  (The unqualified claim is refuted by
`claim_C9_counterexample`: `get_sibs`'s mask `icd[:-1]`-equality plus equal
length is satisfied by the queried code's own row.) -/
theorem claim_C9_no_self_row {c : String} {ccsr : List Row}
    (h : ∀ r ∈ ccsr, r.icd ≠ c) :
    (∀ g, get_children c ccsr = some g → ∀ r ∈ g, r.icd ≠ c) ∧
    (∀ g, get_sibs c ccsr = some g → ∀ r ∈ g, r.icd ≠ c) ∧
    (∀ g, get_parents c ccsr = some g → ∀ r ∈ g, r.icd ≠ c) ∧
    (∀ g, get_halfsibs c ccsr = .ok (some g) → ∀ r ∈ g, r.icd ≠ c) ∧
    (∀ g, get_cousins c ccsr = some g → ∀ r ∈ g, r.icd ≠ c) ∧
    (∀ g, get_extfam c ccsr = some g → ∀ r ∈ g, r.icd ≠ c) :=
  ⟨fun g hg r hr => h r (get_children_subset hg r hr),
   fun g hg r hr => h r (get_sibs_subset hg r hr),
   fun g hg r hr => h r (get_parents_subset hg r hr),
   fun g hg r hr => h r (get_halfsibs_subset hg r hr),
   fun g hg r hr => h r (get_cousins_subset hg r hr),
   fun g hg r hr => h r (get_extfam_subset hg r hr)⟩

/-- Counterexample to the literal C9: when the reference table does contain
an entry for the queried code, `get_sibs` returns it — an entry is "equal in
all but the last character" to itself. -/
theorem claim_C9_counterexample :
    ∃ g, get_sibs "A01" [⟨"A01", "D", ["X"]⟩] = some g ∧
      ∃ r ∈ g, r.icd = "A01" :=
  ⟨[⟨"A01", "D", ["X"]⟩], rfl, ⟨"A01", "D", ["X"]⟩, by decide, rfl⟩

/-- Witness for the amended C9: a table without the queried code. -/
theorem claim_C9_witness :
    (∀ r ∈ [(⟨"A01011", "X", ["X"]⟩ : Row)], r.icd ≠ "A0101") ∧
    ((∀ g, get_children "A0101" [(⟨"A01011", "X", ["X"]⟩ : Row)] = some g →
        ∀ r ∈ g, r.icd ≠ "A0101") ∧
     (∀ g, get_sibs "A0101" [(⟨"A01011", "X", ["X"]⟩ : Row)] = some g →
        ∀ r ∈ g, r.icd ≠ "A0101") ∧
     (∀ g, get_parents "A0101" [(⟨"A01011", "X", ["X"]⟩ : Row)] = some g →
        ∀ r ∈ g, r.icd ≠ "A0101") ∧
     (∀ g, get_halfsibs "A0101" [(⟨"A01011", "X", ["X"]⟩ : Row)] = .ok (some g) →
        ∀ r ∈ g, r.icd ≠ "A0101") ∧
     (∀ g, get_cousins "A0101" [(⟨"A01011", "X", ["X"]⟩ : Row)] = some g →
        ∀ r ∈ g, r.icd ≠ "A0101") ∧
     (∀ g, get_extfam "A0101" [(⟨"A01011", "X", ["X"]⟩ : Row)] = some g →
        ∀ r ∈ g, r.icd ≠ "A0101")) :=
  ⟨by decide, @claim_C9_no_self_row "A0101" [(⟨"A01011", "X", ["X"]⟩ : Row)] (by decide)⟩

/-! ## Query normalisation: `str.capitalize` alters late uppercase letters -/

theorem toNat_ofNat_valid {n : Nat} (h : n.isValidChar) :
    (Char.ofNat n).toNat = n := by
  rw [Char.ofNat, dif_pos h]
  rfl

theorem char_isUpper_toNat {ch : Char} (h : ch.isUpper = true) :
    65 ≤ ch.toNat ∧ ch.toNat ≤ 90 := by
  rw [Char.isUpper] at h
  simp only [Bool.and_eq_true] at h
  obtain ⟨h1, h2⟩ := h
  have h65 : (65 : UInt32).toNat = 65 := by decide
  have h90 : (90 : UInt32).toNat = 90 := by decide
  constructor
  · have hle : (65 : UInt32).toNat ≤ ch.val.toNat :=
      BitVec.le_def.mp (UInt32.le_def.mp (of_decide_eq_true h1))
    rw [h65] at hle
    exact hle
  · have hle : ch.val.toNat ≤ (90 : UInt32).toNat :=
      BitVec.le_def.mp (UInt32.le_def.mp (of_decide_eq_true h2))
    rw [h90] at hle
    exact hle

theorem toLower_ne_self {ch : Char} (h : ch.isUpper = true) :
    Char.toLower ch ≠ ch := by
  obtain ⟨h1, h2⟩ := char_isUpper_toNat h
  intro hcon
  have hvalid : (ch.toNat + 32).isValidChar := Or.inl (by omega)
  have htl : (Char.toLower ch).toNat = ch.toNat + 32 := by
    rw [Char.toLower]
    rw [if_pos ⟨h1, h2⟩]
    exact toNat_ofNat_valid hvalid
  rw [hcon] at htl
  omega

theorem eq_of_map_eq_self {f : Char → Char} :
    ∀ {l : List Char}, l.map f = l → ∀ c ∈ l, f c = c := by
  intro l
  induction l with
  | nil => intro _ c hc; cases hc
  | cons x xs ih =>
    intro h c hc
    rw [List.map_cons] at h
    injection h with h1 h2
    rcases List.mem_cons.mp hc with rfl | hc2
    · exact h1
    · exact ih h2 c hc2

theorem pyCapitalize_alters {t : String}
    (h : ∃ ch ∈ t.data.drop 1, ch.isUpper = true) : pyCapitalize t ≠ t := by
  obtain ⟨ch, hch, hup⟩ := h
  intro hcon
  cases hd : t.data with
  | nil =>
    rw [hd] at hch
    cases hch
  | cons c cs =>
    rw [hd] at hch
    have hcap : pyCapitalize t = ⟨c.toUpper :: cs.map Char.toLower⟩ := by
      rw [pyCapitalize, hd]
    rw [hcap] at hcon
    have hdata := congrArg String.data hcon
    rw [hd] at hdata
    injection hdata with hu hmap
    exact toLower_ne_self hup (eq_of_map_eq_self hmap ch hch)

/-- **C10.** `check_icd` returns the query codes with the NaN entries
filtered out, duplicates dropped (before any transformation), each code
capitalized — first character uppercased, every later character lowercased —
and the result sorted ascending; consequently any query code with an
uppercase letter after its first position is altered by the normalisation. -/
theorem claim_C10_check_icd (q : List (Option String)) :
    List.Sorted strLe (check_icd q) ∧
    List.Perm (check_icd q)
      (((dropDupBy id [] q).filterMap (fun e => e)).map pyCapitalize) ∧
    ∀ t : String, (∃ ch ∈ t.data.drop 1, ch.isUpper = true) →
      pyCapitalize t ≠ t := by
  refine ⟨?_, ?_, fun t h => pyCapitalize_alters h⟩
  · exact List.sorted_insertionSort strLe
      (((dropDupBy id [] q).filterMap (fun e => e)).map pyCapitalize)
  · exact List.perm_insertionSort strLe
      (((dropDupBy id [] q).filterMap (fun e => e)).map pyCapitalize)

/-- Witness for C10: `"a01B"` carries a late uppercase letter and is altered;
the concrete query list is normalised, with the duplicate created *by*
capitalization surviving (deduplication happens first). -/
theorem claim_C10_witness :
    (∃ ch ∈ ("a01B".data.drop 1), ch.isUpper = true) ∧
    pyCapitalize "a01B" ≠ "a01B" ∧
    List.Sorted strLe (check_icd [some "a01B", none, some "A01b", some "b20"]) ∧
    check_icd [some "a01B", none, some "A01b", some "b20"] =
      ["A01b", "A01b", "B20"] :=
  ⟨by decide,
   (claim_C10_check_icd [some "a01B", none, some "A01b", some "b20"]).2.2
     "a01B" (by decide),
   (claim_C10_check_icd [some "a01B", none, some "A01b", some "b20"]).1,
   by decide⟩
